/-
Verification development for the CLIProxyAPI request-execution core.

Each Go function that a claim depends on is embedded as an executable Lean
definition translated from the corresponding source file.  Machine integers
are modelled as Int (Go int arithmetic in the embedded code never overflows
for the ranges the claims quantify over), JSON payloads as an explicit Json
value type, and standard-library collaborators (json.Valid, http.StatusText,
crypto hashes) as function parameters of the embedding.
-/
import Mathlib

/-! # Character-level string primitives

Lean's built-in String.trim, String.toLower, String.isPrefixOf and the string
order do not reduce inside the kernel, so the Go string helpers the embedded
code uses (strings.TrimSpace, ToLower, HasPrefix, TrimPrefix, Contains and
lexical comparison) are modelled on the character list directly. -/

/-- Models strings.TrimSpace. -/
def goTrimSpace (s : String) : String :=
  String.mk (((s.data.dropWhile Char.isWhitespace).reverse.dropWhile Char.isWhitespace).reverse)

/-- Models strings.ToLower (ASCII folding, which covers every string the
embedded code compares). -/
def goToLower (s : String) : String :=
  String.mk (s.data.map Char.toLower)

/-- Models strings.HasPrefix. -/
def goHasPrefix (s pre : String) : Bool :=
  List.isPrefixOf pre.data s.data

/-- Models strings.TrimPrefix under a established prefix: drop its length. -/
def goDrop (s : String) (n : Nat) : String :=
  String.mk (s.data.drop n)

/-- Models strings.Contains. -/
def strContains (s sub : String) : Bool :=
  (List.range (s.length + 1)).any (fun i => goHasPrefix (goDrop s i) sub)

/-- Lexicographic character comparison modelling the Go string order. -/
def charListLt : List Char → List Char → Bool
  | _, [] => false
  | [], _ :: _ => true
  | a :: as, b :: bs => if a < b then true else if b < a then false else charListLt as bs

/-- Strict lexical order on strings. -/
def goStringLt (a b : String) : Bool :=
  charListLt a.data b.data

/-! # Thinking engine (internal/thinking/validate.go) -/

/-- Mirrors internal/thinking ThinkingMode (ModeNone, ModeAuto, ModeBudget, ModeLevel). -/
inductive ThinkingMode where
  | ModeNone
  | ModeAuto
  | ModeBudget
  | ModeLevel
  deriving DecidableEq, Repr

/-- Mirrors internal/thinking ThinkingConfig{Mode, Budget, Level}. -/
structure ThinkingConfig where
  mode : ThinkingMode
  budget : Int
  level : String
  deriving DecidableEq, Repr

/-- Mirrors internal/registry ThinkingSupport{Min, Max, Levels, ZeroAllowed, DynamicAllowed}. -/
structure ThinkingSupport where
  min : Int
  max : Int
  levels : List String
  zeroAllowed : Bool
  dynamicAllowed : Bool
  deriving DecidableEq, Repr

/-- Mirrors the fields of internal/registry ModelInfo that the embedded code reads. -/
structure ModelInfo where
  id : String
  thinking : Option ThinkingSupport
  maxCompletionTokens : Int
  userDefined : Bool
  deriving DecidableEq, Repr

/-- Mirrors the thinking level name constants (LevelNone and friends). -/
def LevelNone : String := "none"

/-- Mirrors the LevelAuto constant. -/
def LevelAuto : String := "auto"

/-- Mirrors the LevelMinimal constant. -/
def LevelMinimal : String := "minimal"

/-- Mirrors the LevelLow constant. -/
def LevelLow : String := "low"

/-- Mirrors the LevelMedium constant. -/
def LevelMedium : String := "medium"

/-- Mirrors the LevelHigh constant. -/
def LevelHigh : String := "high"

/-- Mirrors the LevelXHigh constant. -/
def LevelXHigh : String := "xhigh"

/-- Error kinds of internal/thinking validation (ThinkingError codes). -/
inductive ThinkingErr where
  | thinkingNotSupported
  | unknownLevel
  | levelNotSupported
  deriving DecidableEq, Repr

/-- Model capability classes used by ValidateConfig. -/
inductive ModelCapability where
  | CapabilityBudgetOnly
  | CapabilityLevelOnly
  | CapabilityHybrid
  deriving DecidableEq, Repr

/-- Modelled from the spec: detectModelCapability is referenced by
internal/thinking/validate.go but its definition is not among the provided
sources.  Spec section 4.6: capability is classified as BudgetOnly, LevelOnly,
or Hybrid from presence of the {Min, Max} numeric range and of Levels. -/
def detectModelCapability (s : ThinkingSupport) : ModelCapability :=
  if s.levels ≠ [] ∧ (s.min ≠ 0 ∨ s.max ≠ 0) then ModelCapability.CapabilityHybrid
  else if s.levels ≠ [] then ModelCapability.CapabilityLevelOnly
  else ModelCapability.CapabilityBudgetOnly

/-- Modelled from the spec: ConvertLevelToBudget is referenced by validate.go
but defined outside the provided sources.  Spec section 4.6: level names map to
canonical budgets minimal=512, low=1024, medium=8192, high=24576, xhigh=32768. -/
def ConvertLevelToBudget (level : String) : Option Int :=
  if level = LevelMinimal then some 512
  else if level = LevelLow then some 1024
  else if level = LevelMedium then some 8192
  else if level = LevelHigh then some 24576
  else if level = LevelXHigh then some 32768
  else none

/-- Modelled from the spec: ConvertBudgetToLevel is referenced by validate.go
but defined outside the provided sources.  Spec section 4.6: budget converts to
a level via thresholds 0 to the lowest level, 1..1024 low, up to 8192 medium,
up to 24576 high, above that the highest supported level. -/
def ConvertBudgetToLevel (budget : Int) : Option String :=
  if budget < 0 then none
  else if budget = 0 then some LevelMinimal
  else if budget ≤ 1024 then some LevelLow
  else if budget ≤ 8192 then some LevelMedium
  else if budget ≤ 24576 then some LevelHigh
  else some LevelXHigh

/-- Mirrors isLevelSupported of validate.go; strings.EqualFold is modelled as
ASCII lower-casing both sides (the level names in play are ASCII). -/
def isLevelSupported (level : String) (supported : List String) : Bool :=
  supported.any (fun candidate => goToLower level == goToLower (goTrimSpace candidate))

/-- Mirrors ClampBudget of validate.go (logging dropped; the nil modelInfo and
nil support cases collapse into the none case of the option). -/
def ClampBudget (value : Int) (support : Option ThinkingSupport) : Int :=
  match support with
  | Option.none => value
  | Option.some s =>
    if value = -1 then value
    else if value = 0 ∧ ¬ s.zeroAllowed then s.min
    else if s.min = 0 ∧ s.max = 0 then value
    else if value < s.min then (if value = 0 ∧ s.zeroAllowed then 0 else s.min)
    else if value > s.max then s.max
    else value

/-- Mirrors convertAutoToMidRange of validate.go (logging dropped). -/
def convertAutoToMidRange (config : ThinkingConfig) (s : ThinkingSupport) : ThinkingConfig :=
  if s.levels ≠ [] ∧ s.min = 0 ∧ s.max = 0 then
    { config with mode := ThinkingMode.ModeLevel, level := LevelMedium, budget := 0 }
  else
    let mid := (s.min + s.max) / 2
    if mid ≤ 0 ∧ s.zeroAllowed then
      { config with mode := ThinkingMode.ModeNone, budget := 0 }
    else if mid ≤ 0 then
      { config with mode := ThinkingMode.ModeBudget, budget := s.min }
    else
      { config with mode := ThinkingMode.ModeBudget, budget := mid }

/-- Capability-driven auto-conversion block of ValidateConfig (the switch on
detectModelCapability at the top of the function). -/
def convertByCapability (cap : ModelCapability) (n : ThinkingConfig) :
    Except ThinkingErr ThinkingConfig :=
  match cap with
  | ModelCapability.CapabilityBudgetOnly =>
    if n.mode = ThinkingMode.ModeLevel then
      if n.level = LevelAuto then Except.ok n
      else
        match ConvertLevelToBudget n.level with
        | Option.none => Except.error ThinkingErr.unknownLevel
        | Option.some b =>
          Except.ok { mode := ThinkingMode.ModeBudget, budget := b, level := "" }
    else Except.ok n
  | ModelCapability.CapabilityLevelOnly =>
    if n.mode = ThinkingMode.ModeBudget then
      match ConvertBudgetToLevel n.budget with
      | Option.none => Except.error ThinkingErr.unknownLevel
      | Option.some l =>
        Except.ok { mode := ThinkingMode.ModeLevel, level := l, budget := 0 }
    else Except.ok n
  | ModelCapability.CapabilityHybrid => Except.ok n

/-- The three special-value rewrites of ValidateConfig that follow the
capability switch (level none, level auto, budget zero). -/
def rewriteSpecials (n : ThinkingConfig) : ThinkingConfig :=
  let n :=
    if n.mode = ThinkingMode.ModeLevel ∧ n.level = LevelNone then
      { mode := ThinkingMode.ModeNone, budget := 0, level := "" }
    else n
  let n :=
    if n.mode = ThinkingMode.ModeLevel ∧ n.level = LevelAuto then
      { mode := ThinkingMode.ModeAuto, budget := -1, level := "" }
    else n
  if n.mode = ThinkingMode.ModeBudget ∧ n.budget = 0 then
    { n with mode := ThinkingMode.ModeNone, level := "" }
  else n

/-- Final block of ValidateConfig: the claude ModeNone special case, the
clamping switch, and the lowest-level fill for ModeNone with positive budget. -/
def finalizeConfig (s : ThinkingSupport) (provider : String) (n : ThinkingConfig) :
    ThinkingConfig :=
  if n.mode = ThinkingMode.ModeNone ∧ provider = "claude" then
    { n with budget := 0, level := "" }
  else
    let n :=
      match n.mode with
      | ThinkingMode.ModeBudget => { n with budget := ClampBudget n.budget (some s) }
      | ThinkingMode.ModeAuto => { n with budget := ClampBudget n.budget (some s) }
      | ThinkingMode.ModeNone => { n with budget := ClampBudget n.budget (some s) }
      | ThinkingMode.ModeLevel => n
    if n.mode = ThinkingMode.ModeNone ∧ n.budget > 0 ∧ s.levels ≠ [] then
      { n with level := s.levels.headD "" }
    else n

/-- Mirrors ValidateConfig of internal/thinking/validate.go as the composition
of its successive blocks, in source order. -/
def ValidateConfig (config : ThinkingConfig) (modelInfo : Option ModelInfo)
    (provider : String) : Except ThinkingErr ThinkingConfig :=
  let support := match modelInfo with
    | Option.none => Option.none
    | Option.some mi => mi.thinking
  match support with
  | Option.none =>
    if config.mode ≠ ThinkingMode.ModeNone then Except.error ThinkingErr.thinkingNotSupported
    else Except.ok config
  | Option.some s =>
    match convertByCapability (detectModelCapability s) config with
    | Except.error e => Except.error e
    | Except.ok n =>
      let n := rewriteSpecials n
      if s.levels ≠ [] ∧ n.mode = ThinkingMode.ModeLevel ∧
          ¬ isLevelSupported n.level s.levels then
        Except.error ThinkingErr.levelNotSupported
      else
        let n :=
          if n.mode = ThinkingMode.ModeAuto ∧ ¬ s.dynamicAllowed then
            convertAutoToMidRange n s
          else n
        Except.ok (finalizeConfig s provider n)

/-! # JSON value model for the byte-level gjson and sjson operations

The Go code manipulates raw JSON bytes through gjson path reads and sjson path
writes.  The embedding works on parsed JSON values; the path operations below
reproduce the read/replace/append/delete semantics the embedded functions use. -/

/-- JSON values; objects keep field order as the byte-level code does. -/
inductive Json where
  | null
  | bool (b : Bool)
  | num (n : Int)
  | str (s : String)
  | arr (items : List Json)
  | obj (fields : List (String × Json))

/-- First-match association lookup, as gjson resolves duplicate keys. -/
def lookupField : List (String × Json) → String → Option Json
  | [], _ => Option.none
  | (k, v) :: rest, key => if k = key then Option.some v else lookupField rest key

/-- Object field read, none for non-objects or missing keys. -/
def Json.getField (j : Json) (key : String) : Option Json :=
  match j with
  | Json.obj fields => lookupField fields key
  | _ => Option.none

/-- Mirrors gjson Result.String for the value kinds the embedded code reads. -/
def Json.asString : Json → String
  | Json.str s => s
  | Json.bool true => "true"
  | Json.bool false => "false"
  | Json.num n => toString n
  | _ => ""

/-- Mirrors gjson Result.Int for the value kinds the embedded code reads. -/
def Json.asInt : Json → Int
  | Json.num n => n
  | Json.bool true => 1
  | _ => 0

/-- Field read followed by gjson String coercion (missing field reads ""). -/
def getString (j : Json) (key : String) : String :=
  match j.getField key with
  | Option.some v => v.asString
  | Option.none => ""

/-- Replace-or-append write on an association list, as sjson writes a key. -/
def setFieldList : List (String × Json) → String → Json → List (String × Json)
  | [], key, v => [(key, v)]
  | (k, w) :: rest, key, v =>
    if k = key then (k, v) :: rest else (k, w) :: setFieldList rest key v

/-- Object field write; sjson materialises an object when the node is not one. -/
def Json.setField (j : Json) (key : String) (v : Json) : Json :=
  match j with
  | Json.obj fields => Json.obj (setFieldList fields key v)
  | _ => Json.obj [(key, v)]

/-- Removal of the first binding of a key. -/
def delFieldList : List (String × Json) → String → List (String × Json)
  | [], _ => []
  | (k, w) :: rest, key => if k = key then rest else (k, w) :: delFieldList rest key

/-- Object field deletion; non-objects are left unchanged. -/
def Json.delField (j : Json) (key : String) : Json :=
  match j with
  | Json.obj fields => Json.obj (delFieldList fields key)
  | _ => j

/-- Dotted-path read, as gjson.GetBytes on an object path. -/
def Json.getPath (j : Json) : List String → Option Json
  | [] => Option.some j
  | key :: rest =>
    match j.getField key with
    | Option.some child => child.getPath rest
    | Option.none => Option.none

/-- Dotted-path write, creating missing intermediate objects as sjson does. -/
def Json.setPath (j : Json) : List String → Json → Json
  | [], v => v
  | key :: rest, v =>
    let child := match j.getField key with
      | Option.some c => c
      | Option.none => Json.obj []
    j.setField key (child.setPath rest v)

/-- Dotted-path delete; a missing path leaves the payload unchanged. -/
def Json.delPath (j : Json) : List String → Json
  | [] => j
  | [key] => j.delField key
  | key :: rest =>
    match j.getField key with
    | Option.some child => j.setField key (child.delPath rest)
    | Option.none => j

/-! # Claude OAuth tool prefixing (claude_executor.go) -/

/-- Mirrors the claudeToolPrefix constant. -/
def claudeToolPrefix : String := "proxy_"

/-- Per-entry step of the tools loop in applyClaudeToolPrefix: built-in tools
carry a non-empty type field and are skipped; otherwise a non-empty name that
does not already carry the prefix is rewritten to prefix plus name. -/
def prefixToolEntry (pre : String) (tool : Json) : Json :=
  if getString tool "type" ≠ "" then tool
  else
    let name := getString tool "name"
    if name = "" ∨ goHasPrefix name pre then tool
    else tool.setField "name" (Json.str (pre ++ name))

/-- Per-part step of the messages loop in applyClaudeToolPrefix: only parts of
type tool_use have their name field rewritten. -/
def prefixContentPart (pre : String) (part : Json) : Json :=
  if getString part "type" ≠ "tool_use" then part
  else
    let name := getString part "name"
    if name = "" ∨ goHasPrefix name pre then part
    else part.setField "name" (Json.str (pre ++ name))

/-- Per-message step of the messages loop in applyClaudeToolPrefix. -/
def prefixMessage (pre : String) (msg : Json) : Json :=
  match msg.getField "content" with
  | Option.some (Json.arr parts) =>
    msg.setField "content" (Json.arr (parts.map (prefixContentPart pre)))
  | _ => msg

/-- Mirrors applyClaudeToolPrefix of claude_executor.go: prefixes custom tool
names in the tools array, in tool_choice of type tool, and in tool_use parts
directly inside messages content arrays. -/
def applyClaudeToolPrefix (body : Json) (pre : String) : Json :=
  if pre = "" then body
  else
    let body := match body.getField "tools" with
      | Option.some (Json.arr tools) =>
        body.setField "tools" (Json.arr (tools.map (prefixToolEntry pre)))
      | _ => body
    let body :=
      if (match body.getPath ["tool_choice", "type"] with
          | Option.some v => v.asString
          | Option.none => "") = "tool" then
        let name := match body.getPath ["tool_choice", "name"] with
          | Option.some v => v.asString
          | Option.none => ""
        if name ≠ "" ∧ ¬ goHasPrefix name pre then
          body.setPath ["tool_choice", "name"] (Json.str (pre ++ name))
        else body
      else body
    match body.getField "messages" with
    | Option.some (Json.arr msgs) =>
      body.setField "messages" (Json.arr (msgs.map (prefixMessage pre)))
    | _ => body

/-- Per-part step of stripClaudeToolPrefixFromResponse. -/
def stripContentPart (pre : String) (part : Json) : Json :=
  if getString part "type" ≠ "tool_use" then part
  else
    let name := getString part "name"
    if ¬ goHasPrefix name pre then part
    else part.setField "name" (Json.str (goDrop name pre.length))

/-- Mirrors stripClaudeToolPrefixFromResponse of claude_executor.go: strips the
prefix from tool_use names directly inside the top-level content array. -/
def stripClaudeToolPrefixFromResponse (body : Json) (pre : String) : Json :=
  if pre = "" then body
  else
    match body.getField "content" with
    | Option.some (Json.arr parts) =>
      body.setField "content" (Json.arr (parts.map (stripContentPart pre)))
    | _ => body

/-! # Antigravity Claude thinking clamp (internal/thinking/provider/antigravity/apply.go) -/

/-- Mirrors effectiveMaxTokens: prefer a positive request-provided
maxOutputTokens, otherwise fall back to the model default; the flag records
whether the fallback was used. -/
def effectiveMaxTokens (payload : Json) (modelInfo : Option ModelInfo) : Int × Bool :=
  let fallback : Int × Bool := match modelInfo with
    | Option.some mi =>
      if mi.maxCompletionTokens > 0 then (mi.maxCompletionTokens, true) else (0, false)
    | Option.none => (0, false)
  match payload.getPath ["request", "generationConfig", "maxOutputTokens"] with
  | Option.some v => if v.asInt > 0 then (v.asInt, false) else fallback
  | Option.none => fallback

/-- Mirrors normalizeClaudeBudget: cap the budget to effectiveMax minus one,
delete thinkingConfig entirely (sentinel budget -2) when the capped budget is
non-negative but below the model minimum, and write the model-default
maxOutputTokens back when it was used as the cap. -/
def normalizeClaudeBudget (budget : Int) (payload : Json) (modelInfo : Option ModelInfo) :
    Int × Json :=
  match modelInfo with
  | Option.none => (budget, payload)
  | Option.some mi =>
    let em := effectiveMaxTokens payload (some mi)
    let budget := if em.1 > 0 ∧ budget ≥ em.1 then em.1 - 1 else budget
    let minBudget := match mi.thinking with
      | Option.some s => s.min
      | Option.none => 0
    if minBudget > 0 ∧ budget ≥ 0 ∧ budget < minBudget then
      (-2, payload.delPath ["request", "generationConfig", "thinkingConfig"])
    else
      let payload :=
        if em.2 ∧ em.1 > 0 then
          payload.setPath ["request", "generationConfig", "maxOutputTokens"] (Json.num em.1)
        else payload
      (budget, payload)

/-! # Error response body (sdk/api/handlers, BuildErrorResponseBody) -/

/-- Observable result of BuildErrorResponseBody: either the trimmed input
forwarded verbatim, or the marshalled OpenAI error envelope with its message,
type and code fields (an empty code models the omitempty field). -/
inductive ErrorBody where
  | verbatim (body : String)
  | envelope (message ty code : String)
  deriving DecidableEq, Repr

/-- Mirrors BuildErrorResponseBody of the handlers package.  json.Valid and
http.StatusText are standard-library collaborators and enter as parameters. -/
def BuildErrorResponseBody (jsonValid : String → Bool) (statusText : Int → String)
    (status : Int) (errText : String) : ErrorBody :=
  let status := if status ≤ 0 then 500 else status
  let errText := if goTrimSpace errText = "" then statusText status else errText
  let trimmed := goTrimSpace errText
  if trimmed ≠ "" ∧ jsonValid trimmed then ErrorBody.verbatim trimmed
  else
    let tc : String × String :=
      if status = 401 then ("authentication_error", "invalid_api_key")
      else if status = 403 then ("permission_error", "insufficient_quota")
      else if status = 429 then ("rate_limit_error", "rate_limit_exceeded")
      else if status = 404 then ("invalid_request_error", "model_not_found")
      else if status ≥ 500 then ("server_error", "internal_server_error")
      else ("invalid_request_error", "")
    ErrorBody.envelope errText tc.1 tc.2

/-! # Streaming bootstrap retry (sdk/api/handlers, ExecuteStreamWithAuthManager) -/

/-- Mirrors StreamingBootstrapRetries: the configured value (0 when the config
is absent), clamped below at 0. -/
def StreamingBootstrapRetries (cfgRetries : Option Int) : Int :=
  let retries := match cfgRetries with
    | Option.none => 0
    | Option.some r => r
  if retries < 0 then 0 else retries

/-- Mirrors statusFromError: a non-positive StatusCode reads as 0. -/
def statusFromError (status : Int) : Int :=
  if status > 0 then status else 0

/-- Mirrors the bootstrapEligible closure of ExecuteStreamWithAuthManager. -/
def bootstrapEligible (errStatus : Int) : Bool :=
  let status := statusFromError errStatus
  if status = 0 then true
  else if status = 401 ∨ status = 403 ∨ status = 402 ∨ status = 408 ∨ status = 429 then true
  else status ≥ 500

/-- One chunk on the upstream stream channel: a payload or an error carrying
the upstream status (0 models an error without a StatusCode). -/
inductive StreamChunk where
  | payload (data : String)
  | err (status : Int)

/-- Result of one AuthManager.ExecuteStream invocation: an immediate error or
a channel that will deliver the given chunks and then close. -/
inductive ExecResult where
  | failed (status : Int)
  | stream (chunks : List StreamChunk)

/-- Observable outcome of the forwarding goroutine: payloads sent to the data
channel in order, the status emitted on the error channel if any, the total
number of ExecuteStream invocations, and the statuses that triggered a retry. -/
structure StreamOutcome where
  payloads : List String
  errorStatus : Option Int
  calls : Nat
  retried : List Int
  deriving DecidableEq, Repr

/-- Mirrors the forwarding goroutine of ExecuteStreamWithAuthManager: payload
chunks are forwarded (setting sentPayload), an error chunk retries
ExecuteStream while no payload was sent, fewer than maxRetries retries were
used and the status is bootstrap-eligible, and otherwise the error is emitted
and the stream ends.  The retried field logs each retry-triggering status. -/
def runStreamLoop (retry : Nat → ExecResult) (maxRetries : Nat)
    (chunks : List StreamChunk) (sent : Bool) (used : Nat)
    (accP : List String) (accR : List Int) : StreamOutcome :=
  match chunks with
  | [] => ⟨accP.reverse, Option.none, 1 + used, accR.reverse⟩
  | StreamChunk.payload data :: rest =>
    if data ≠ "" then runStreamLoop retry maxRetries rest true used (data :: accP) accR
    else runStreamLoop retry maxRetries rest sent used accP accR
  | StreamChunk.err s :: _ =>
    if ¬ sent ∧ used < maxRetries ∧ bootstrapEligible s then
      match retry used with
      | ExecResult.stream newChunks =>
        runStreamLoop retry maxRetries newChunks sent (used + 1) accP (s :: accR)
      | ExecResult.failed s2 =>
        ⟨accP.reverse, Option.some s2, 1 + (used + 1), (s :: accR).reverse⟩
    else ⟨accP.reverse, Option.some s, 1 + used, accR.reverse⟩
termination_by (maxRetries - used, chunks.length)
decreasing_by
  all_goals simp_wf
  · right; omega
  · right; omega
  · left; omega

/-- Mirrors ExecuteStreamWithAuthManager at the stream level: a failing first
ExecuteStream call surfaces its error with no retry; a successful one hands
its chunk channel to the forwarding goroutine. -/
def ExecuteStreamWithAuthManager (first : ExecResult) (retry : Nat → ExecResult)
    (maxRetries : Nat) : StreamOutcome :=
  match first with
  | ExecResult.failed s => ⟨[], Option.some s, 1, []⟩
  | ExecResult.stream chunks => runStreamLoop retry maxRetries chunks false 0 [] []

/-! # Credential selector (sdk/cliproxy/auth selector)

The selector implementation is exercised by selector_test.go but its source is
not among the provided files; the definitions below are modelled from the
spec, section 4.3. -/

/-- One selector candidate: its identifier, its priority attribute, and the
NextRetryAfter instant of its ModelState for the requested model (0 when the
pair has no cooldown). -/
structure Candidate where
  id : String
  priority : Int
  nextRetryAfter : Nat
  deriving DecidableEq, Repr

/-- A pair is cooling when its NextRetryAfter lies in the future. -/
def isCooling (now : Nat) (c : Candidate) : Bool :=
  decide (now < c.nextRetryAfter)

/-- Spec section 4.3 ordering: higher priority bucket first, then lexically
smallest identifier. -/
def candidateBefore (a b : Candidate) : Bool :=
  decide (a.priority > b.priority) || (decide (a.priority = b.priority) && goStringLt a.id b.id)

/-- Smallest candidate under candidateBefore, none for an empty list. -/
def selectBest (cands : List Candidate) : Option Candidate :=
  cands.foldl
    (fun best c =>
      match best with
      | Option.none => Option.some c
      | Option.some b => if candidateBefore c b then Option.some c else Option.some b)
    Option.none

/-- Modelled from the spec: FillFirstSelector.Pick (the implementation is not
among the provided sources).  Spec section 4.3: within the top priority bucket
holding at least one pair not in cooldown, return the smallest identifier;
buckets whose members all cool down are skipped.  The spec leaves the
all-cooling case open; the model then falls back to the overall best
candidate, so a cooling pair can only be returned when no alternative exists. -/
def fillFirstPick (now : Nat) (cands : List Candidate) : Option Candidate :=
  let avail := cands.filter (fun c => ¬ isCooling now c)
  match selectBest avail with
  | Option.some c => Option.some c
  | Option.none => selectBest cands

/-- Identifier-ordered insertion used to sort a round-robin bucket. -/
def insertById (c : Candidate) : List Candidate → List Candidate
  | [] => [c]
  | d :: rest =>
    if goStringLt c.id d.id || c.id == d.id then c :: d :: rest else d :: insertById c rest

/-- Identifier-sorted copy of a candidate list. -/
def sortById (cands : List Candidate) : List Candidate :=
  cands.foldr insertById []

/-- Modelled from the spec: RoundRobinSelector.Pick (the implementation is not
among the provided sources).  Spec section 4.3: lower-priority buckets are
never consulted while a higher bucket has a non-cooling candidate; within the
top such bucket the counter indexes the identifier-sorted member list.  As for
fill-first, the all-cooling case falls back to the overall best candidate. -/
def roundRobinPick (now : Nat) (counter : Nat) (cands : List Candidate) : Option Candidate :=
  let avail := cands.filter (fun c => ¬ isCooling now c)
  match selectBest avail with
  | Option.none => selectBest cands
  | Option.some top =>
    let bucket := sortById (avail.filter (fun c => c.priority = top.priority))
    bucket[counter % bucket.length]?

/-! # OAuth model-name mapping (sdk/cliproxy/auth oauth model mapping) -/

/-- First-match association lookup on string pairs, empty for a missing key
(Go map read). -/
def lookupStr : List (String × String) → String → String
  | [], _ => ""
  | (k, v) :: rest, key => if k = key then v else lookupStr rest key

/-- Replace-or-append write on string pairs (Go map write). -/
def setStr : List (String × String) → String → String → List (String × String)
  | [], key, v => [(key, v)]
  | (k, w) :: rest, key, v =>
    if k = key then (k, v) :: rest else (k, w) :: setStr rest key v

/-- Mirrors util.ModelMappingOriginalModelMetadataKey. -/
def ModelMappingOriginalModelMetadataKey : String := "model_mapping_original_model"

/-- The fields of an Auth that the model-mapping path reads.  accountKind
models the kind returned by auth.AccountInfo, whose definition is outside the
provided sources; the claims instantiate auths whose auth_kind attribute is
set, which makes the fallback irrelevant. -/
structure OAuthAuth where
  provider : String
  attributes : List (String × String)
  accountKind : String
  deriving DecidableEq, Repr

/-- Mirrors OAuthModelMappingChannel of the auth package. -/
def OAuthModelMappingChannel (provider authKind : String) : String :=
  let provider := goToLower (goTrimSpace provider)
  let authKind := goToLower (goTrimSpace authKind)
  if provider = "gemini" then ""
  else if provider = "vertex" then (if authKind = "apikey" then "" else "vertex")
  else if provider = "claude" then (if authKind = "apikey" then "" else "claude")
  else if provider = "codex" then (if authKind = "apikey" then "" else "codex")
  else if provider = "gemini-cli" ∨ provider = "aistudio" ∨ provider = "antigravity" ∨
      provider = "qwen" ∨ provider = "iflow" then provider
  else ""

/-- Mirrors modelMappingChannel: provider and auth_kind attribute feed
OAuthModelMappingChannel, with the AccountInfo api_key fallback. -/
def modelMappingChannel (auth : OAuthAuth) : String :=
  let provider := goToLower (goTrimSpace auth.provider)
  let authKind := goToLower (goTrimSpace (lookupStr auth.attributes "auth_kind"))
  let authKind :=
    if authKind = "" then
      (if goToLower auth.accountKind = "api_key" then "apikey" else "")
    else authKind
  OAuthModelMappingChannel provider authKind

/-- The compiled reverse mapping table: channel to alias (lower-cased) to the
upstream model name. -/
abbrev MappingTable := List (String × List (String × String))

/-- Channel lookup on the compiled mapping table. -/
def lookupChannel : MappingTable → String → Option (List (String × String))
  | [], _ => Option.none
  | (k, rev) :: rest, key =>
    if k = key then Option.some rev else lookupChannel rest key

/-- Mirrors resolveOAuthUpstreamModel of the auth package; strings.EqualFold
is modelled as ASCII lower-casing both sides. -/
def resolveOAuthUpstreamModel (table : MappingTable) (auth : OAuthAuth)
    (requestedModel : String) : String :=
  let channel := modelMappingChannel auth
  if channel = "" then ""
  else
    let key := goToLower (goTrimSpace requestedModel)
    if key = "" then ""
    else
      match lookupChannel table channel with
      | Option.none => ""
      | Option.some rev =>
        let original := goTrimSpace (lookupStr rev key)
        if original = "" ∨ goToLower original = goToLower requestedModel then ""
        else original

/-- Mirrors applyOAuthModelMapping of the auth package: when a mapping
resolves, the request model becomes the upstream model and the metadata key
receives the value the source writes there. -/
def applyOAuthModelMapping (table : MappingTable) (auth : OAuthAuth)
    (requestedModel : String) (metadata : List (String × String)) :
    String × List (String × String) :=
  let upstreamModel := resolveOAuthUpstreamModel table auth requestedModel
  if upstreamModel = "" then (requestedModel, metadata)
  else (upstreamModel, setStr metadata ModelMappingOriginalModelMetadataKey upstreamModel)

/-! # Signature cache (cache package, first signature_cache variant) -/

/-- Mirrors SignatureEntry: a signature with its store or refresh instant
(nanoseconds, as Go time ticks). -/
structure SignatureEntry where
  signature : String
  timestamp : Nat
  deriving DecidableEq, Repr

/-- Mirrors SignatureCacheTTL, three hours in nanoseconds. -/
def SignatureCacheTTL : Nat := 3 * 3600 * 1000000000

/-- Mirrors MinValidSignatureLen. -/
def MinValidSignatureLen : Nat := 50

/-- The sessionId to textHash to entry map held by the package-level sync.Map. -/
abbrev SigCache := List (String × List (String × SignatureEntry))

/-- Mirrors GetModelGroup of the cache package: the gpt test runs first, then
claude, then gemini, and otherwise the model name itself is the group. -/
def GetModelGroup (modelName : String) : String :=
  if strContains modelName "gpt" then "gpt"
  else if strContains modelName "claude" then "claude"
  else if strContains modelName "gemini" then "gemini"
  else modelName

/-- Replace-or-append write of one signature entry (Go inner map write). -/
def setEntry : List (String × SignatureEntry) → String → SignatureEntry →
    List (String × SignatureEntry)
  | [], key, e => [(key, e)]
  | (k, w) :: rest, key, e =>
    if k = key then (k, e) :: rest else (k, w) :: setEntry rest key e

/-- Store an entry under a session, creating the session when absent
(getOrCreateSession followed by the guarded map write). -/
def storeSession : SigCache → String → String → SignatureEntry → SigCache
  | [], sessionKey, entryKey, e => [(sessionKey, [(entryKey, e)])]
  | (k, entries) :: rest, sessionKey, entryKey, e =>
    if k = sessionKey then (k, setEntry entries entryKey e) :: rest
    else (k, entries) :: storeSession rest sessionKey entryKey e

/-- Session lookup on the outer map. -/
def lookupSession : SigCache → String → Option (List (String × SignatureEntry))
  | [], _ => Option.none
  | (k, entries) :: rest, key =>
    if k = key then Option.some entries else lookupSession rest key

/-- Entry lookup on an inner map. -/
def lookupEntry : List (String × SignatureEntry) → String → Option SignatureEntry
  | [], _ => Option.none
  | (k, e) :: rest, key => if k = key then Option.some e else lookupEntry rest key

/-- Removal of the first binding of a key in an inner map. -/
def delEntry : List (String × SignatureEntry) → String → List (String × SignatureEntry)
  | [], _ => []
  | (k, e) :: rest, key => if k = key then rest else (k, e) :: delEntry rest key

/-- Delete one entry inside one session of the cache. -/
def removeEntry : SigCache → String → String → SigCache
  | [], _, _ => []
  | (k, entries) :: rest, sessionKey, entryKey =>
    if k = sessionKey then (k, delEntry entries entryKey) :: rest
    else (k, entries) :: removeEntry rest sessionKey entryKey

/-- Mirrors CacheSignature of the first cache variant: empty text or
signature, or a signature shorter than MinValidSignatureLen bytes, leaves the
cache untouched; otherwise the entry is stored under the hash of group#text,
which keys both the session and the entry.  sha256 hashing enters as the
hashText parameter. -/
def CacheSignature (hashText : String → String) (now : Nat)
    (modelName text signature : String) (cache : SigCache) : SigCache :=
  if text = "" ∨ signature = "" then cache
  else if signature.utf8ByteSize < MinValidSignatureLen then cache
  else
    let key := hashText (GetModelGroup modelName ++ "#" ++ text)
    storeSession cache key key ⟨signature, now⟩

/-- Mirrors the gemini sentinel literal of GetCachedSignature. -/
def skipThoughtSignatureValidator : String := "skip_thought_signature_validator"

/-- Mirrors GetCachedSignature of the first cache variant, returning the value
together with the updated cache (the expiry branch deletes the entry, the hit
branch refreshes the timestamp).  For the gemini model group every miss
returns the sentinel value instead of the empty string. -/
def GetCachedSignature (hashText : String → String) (now : Nat)
    (modelName text : String) (cache : SigCache) : String × SigCache :=
  let family := GetModelGroup modelName
  let missVal := if family = "gemini" then skipThoughtSignatureValidator else ""
  if text = "" then (missVal, cache)
  else
    let key := hashText (family ++ "#" ++ text)
    match lookupSession cache key with
    | Option.none => (missVal, cache)
    | Option.some entries =>
      match lookupEntry entries key with
      | Option.none => (missVal, cache)
      | Option.some entry =>
        if now - entry.timestamp > SignatureCacheTTL then
          (missVal, removeEntry cache key key)
        else
          (entry.signature, storeSession cache key key { entry with timestamp := now })

/-! # Concrete instances and auxiliary predicates used by the theorems -/

/-- Budget-only test model mirroring gemini-budget-model of the repository's
thinking conversion test (Min 128, Max 20000, ZeroAllowed false). -/
def budgetOnlyModel : ModelInfo :=
  { id := "gemini-budget-model",
    thinking := some { min := 128, max := 20000, levels := [],
                       zeroAllowed := false, dynamicAllowed := true },
    maxCompletionTokens := 0, userDefined := false }

/-- Level-only model whose level list lacks medium, used to exhibit the
auto-conversion normalization escape. -/
def lowHighLevelModel : ModelInfo :=
  { id := "low-high-level-model",
    thinking := some { min := 0, max := 0, levels := ["low", "high"],
                       zeroAllowed := false, dynamicAllowed := false },
    maxCompletionTokens := 0, userDefined := false }

/-- Claude-on-Antigravity test model mirroring the spec scenario (Thinking
Min 1024, Max 16000, default MaxCompletionTokens 8192). -/
def antigravityClaudeModel : ModelInfo :=
  { id := "gemini-claude-sonnet-4-5-thinking",
    thinking := some { min := 1024, max := 16000, levels := [],
                       zeroAllowed := false, dynamicAllowed := false },
    maxCompletionTokens := 8192, userDefined := false }

/-- Payload of the spec scenario for the Antigravity Claude thinking clamp. -/
def antigravityClaudePayload : Json :=
  Json.obj [("request", Json.obj
    [("generationConfig", Json.obj
      [("maxOutputTokens", Json.num 4000),
       ("thinkingConfig", Json.obj [("thinkingBudget", Json.num 5000)])])])]

/-- Request of the repository test TestApplyClaudeToolPrefix_NestedToolReference:
a tool_reference inside a nested tool_result content array. -/
def nestedToolReferenceRequest : Json :=
  Json.obj [("messages", Json.arr
    [Json.obj [("role", Json.str "user"),
               ("content", Json.arr
                 [Json.obj [("type", Json.str "tool_result"),
                            ("tool_use_id", Json.str "toolu_123"),
                            ("content", Json.arr
                              [Json.obj [("type", Json.str "tool_reference"),
                                         ("tool_name",
                                          Json.str "mcp__nia__manage_resource")]])]])]])]

/-- Response of the repository test
TestStripClaudeToolPrefixFromResponse_WithToolReference: tool_reference parts
carrying the proxy prefix in their tool_name field. -/
def toolReferenceResponse : Json :=
  Json.obj [("content", Json.arr
    [Json.obj [("type", Json.str "tool_reference"), ("tool_name", Json.str "proxy_alpha")],
     Json.obj [("type", Json.str "tool_reference"), ("tool_name", Json.str "bravo")]])]

/-- Mapping table with one claude-channel alias, mirroring the alias rows of
the repository's thinking suffix test. -/
def claudeAliasTable : MappingTable :=
  [("claude", [("cs45", "claude-sonnet-4-5-20250929")])]

/-- A claude OAuth credential as the model-mapping path sees it. -/
def claudeOAuthAuth : OAuthAuth :=
  { provider := "claude", attributes := [("auth_kind", "oauth")], accountKind := "" }

/-- Number of bindings of a key inside an object field list. -/
def countKey : List (String × Json) → String → Nat
  | [], _ => 0
  | (k, _) :: rest, key => (if k = key then 1 else 0) + countKey rest key

/-- Every signature stored in the cache is at least MinValidSignatureLen bytes
long. -/
def allLong (cache : SigCache) : Prop :=
  ∀ p ∈ cache, ∀ q ∈ p.2, MinValidSignatureLen ≤ q.2.signature.utf8ByteSize

/-- Selector candidates of the priority fallback cooldown scenario: a
high-priority auth cooling for thirty more minutes and an active low-priority
auth (times in minutes). -/
def coolingHigh : Candidate := { id := "high", priority := 10, nextRetryAfter := 1030 }

/-- The active low-priority candidate of the same scenario. -/
def activeLow : Candidate := { id := "low", priority := 0, nextRetryAfter := 0 }

/-- Well-formedness of a thinking capability block under which ValidateConfig
normalizes idempotently: the numeric range is either absent (both zero) or
positive and ordered; a degenerate block with no range, no levels and no
dynamic support allows zero; and a level-only block without dynamic support
lists a medium level for the auto fallback to land on. -/
def wellFormedSupport (s : ThinkingSupport) : Prop :=
  ((0 < s.min ∧ s.min ≤ s.max) ∨ (s.min = 0 ∧ s.max = 0)) ∧
  (s.min = 0 ∧ s.max = 0 ∧ s.levels = [] ∧ s.dynamicAllowed = false →
    s.zeroAllowed = true) ∧
  (s.min = 0 ∧ s.max = 0 ∧ s.levels ≠ [] ∧ s.dynamicAllowed = false →
    isLevelSupported LevelMedium s.levels = true)

/-- Shape of the configurations ValidateConfig can output on a model with
support s: each disjunct pins the facts that make a second validation a
fixed point. -/
def ValidOutput (s : ThinkingSupport) (provider : String) (c : ThinkingConfig) : Prop :=
  (c.mode = ThinkingMode.ModeNone ∧ provider = "claude" ∧ c.budget = 0 ∧ c.level = "") ∨
  (c.mode = ThinkingMode.ModeNone ∧ provider ≠ "claude" ∧
    ClampBudget c.budget (some s) = c.budget ∧
    (0 < c.budget ∧ s.levels ≠ [] → c.level = s.levels.headD "")) ∨
  (c.mode = ThinkingMode.ModeBudget ∧ c.budget ≠ 0 ∧
    ClampBudget c.budget (some s) = c.budget ∧
    detectModelCapability s ≠ ModelCapability.CapabilityLevelOnly) ∨
  (c.mode = ThinkingMode.ModeLevel ∧ c.level ≠ LevelNone ∧ c.level ≠ LevelAuto ∧
    (s.levels ≠ [] → isLevelSupported c.level s.levels = true) ∧
    detectModelCapability s ≠ ModelCapability.CapabilityBudgetOnly) ∨
  (c.mode = ThinkingMode.ModeAuto ∧ s.dynamicAllowed = true ∧
    ClampBudget c.budget (some s) = c.budget)

/-- Shape of the configuration entering the final block of ValidateConfig
(after capability conversion, special-value rewrites, the level-support check
and the auto fallback). -/
def MidOK (s : ThinkingSupport) (n : ThinkingConfig) : Prop :=
  (n.mode = ThinkingMode.ModeBudget → n.budget ≠ 0 ∧
    detectModelCapability s ≠ ModelCapability.CapabilityLevelOnly) ∧
  (n.mode = ThinkingMode.ModeLevel → n.level ≠ LevelNone ∧ n.level ≠ LevelAuto ∧
    (s.levels ≠ [] → isLevelSupported n.level s.levels = true) ∧
    detectModelCapability s ≠ ModelCapability.CapabilityBudgetOnly) ∧
  (n.mode = ThinkingMode.ModeAuto → s.dynamicAllowed = true)

/-! # Theorems -/

/-- C4: for every positive HTTP status and error text, when the effective
trimmed text is not valid JSON, BuildErrorResponseBody returns the OpenAI
envelope whose type and code follow the status table (authentication_error
and invalid_api_key at 401, permission_error and insufficient_quota at 403,
invalid_request_error and model_not_found at 404, rate_limit_error and
rate_limit_exceeded at 429, server_error and internal_server_error at every
status at least 500, invalid_request_error otherwise); when the trimmed text
is valid JSON it is forwarded verbatim. -/
theorem C4_build_error_response_body (jsonValid : String → Bool)
    (statusText : Int → String) (status : Int) (errText effText : String)
    (hpos : 0 < status)
    (heff : effText = if goTrimSpace errText = "" then statusText status else errText) :
    (jsonValid (goTrimSpace effText) = false →
      BuildErrorResponseBody jsonValid statusText status errText =
        ErrorBody.envelope effText
          (if status = 401 then "authentication_error"
           else if status = 403 then "permission_error"
           else if status = 404 then "invalid_request_error"
           else if status = 429 then "rate_limit_error"
           else if status ≥ 500 then "server_error"
           else "invalid_request_error")
          (if status = 401 then "invalid_api_key"
           else if status = 403 then "insufficient_quota"
           else if status = 404 then "model_not_found"
           else if status = 429 then "rate_limit_exceeded"
           else if status ≥ 500 then "internal_server_error"
           else "")) ∧
    (goTrimSpace effText ≠ "" → jsonValid (goTrimSpace effText) = true →
      BuildErrorResponseBody jsonValid statusText status errText =
        ErrorBody.verbatim (goTrimSpace effText)) := by
  have hs : (if status ≤ 0 then (500 : Int) else status) = status := by
    rw [if_neg]; omega
  constructor
  · intro hjson
    simp only [BuildErrorResponseBody, hs, ← heff, hjson, Bool.false_eq_true, and_false,
      if_false]
    split_ifs <;> first | rfl | omega
  · intro hne hjson
    simp only [BuildErrorResponseBody, hs, ← heff]
    rw [if_pos ⟨hne, hjson⟩]

/-- C4 witness: at status 401 with a non-JSON text the envelope carries
authentication_error and invalid_api_key. -/
theorem C4_build_error_response_body_witness :
    BuildErrorResponseBody (fun _ => false) (fun _ => "") 401 "bad key" =
      ErrorBody.envelope "bad key" "authentication_error" "invalid_api_key" := by
  have h := (C4_build_error_response_body (fun _ => false) (fun _ => "") 401 "bad key"
    "bad key" (by norm_num) (by decide)).1 rfl
  exact h.trans (by decide)

/-- C3 counterexample: on the budget-only model with range [128, 20000] and
ZeroAllowed false, the input budget -1 (the auto sentinel) passes through
ValidateConfig unclamped, so the produced budget lies neither in [Min, Max]
nor in the zero exception. -/
theorem C3_budget_clamp_counterexample :
    ValidateConfig ⟨ThinkingMode.ModeBudget, -1, ""⟩ (some budgetOnlyModel) "gemini" =
      Except.ok ⟨ThinkingMode.ModeBudget, -1, ""⟩ ∧
    ¬ ((128 ≤ (-1 : Int) ∧ (-1 : Int) ≤ 20000) ∨ (-1 : Int) = 0) := by
  exact ⟨rfl, by decide⟩

/-- Helper: with a positive well-ordered range, ClampBudget lands in
[Min, Max] except for the pass-through sentinel -1 and the allowed zero. -/
theorem ClampBudget_mem (b : Int) (s : ThinkingSupport) (hmin : 0 < s.min)
    (hmm : s.min ≤ s.max) (hb : b ≠ -1) :
    (b = 0 ∧ s.zeroAllowed = true ∧ ClampBudget b (some s) = 0) ∨
    (s.min ≤ ClampBudget b (some s) ∧ ClampBudget b (some s) ≤ s.max) := by
  simp only [ClampBudget]
  split_ifs with h1 h2 h3 h4 h5 h6 <;> simp_all <;> omega

/-- C3 amended: for every model whose thinking block is budget-only with
0 < Min ≤ Max, every provider, and every integer budget b other than the auto
sentinel -1 and other than 0 on the claude provider, ValidateConfig on
ThinkingConfig{Mode Budget, Budget b} succeeds with a budget in
[Min, Max] ∪ {0 iff ZeroAllowed}; in particular a zero input with ZeroAllowed
false is clamped to Min. -/
theorem C3_budget_clamp_amended (b : Int) (s : ThinkingSupport) (provider : String)
    (mi : ModelInfo) (hmi : mi.thinking = some s) (hlv : s.levels = [])
    (hmin : 0 < s.min) (hmm : s.min ≤ s.max) (hb : b ≠ -1)
    (hcl : ¬ (provider = "claude" ∧ b = 0)) :
    ∃ c, ValidateConfig ⟨ThinkingMode.ModeBudget, b, ""⟩ (some mi) provider =
        Except.ok c ∧
      ((s.min ≤ c.budget ∧ c.budget ≤ s.max) ∨ (c.budget = 0 ∧ s.zeroAllowed = true)) ∧
      (b = 0 → s.zeroAllowed = false → c.budget = s.min) := by
  have hcap : detectModelCapability s = ModelCapability.CapabilityBudgetOnly := by
    simp [detectModelCapability, hlv]
  have hconv : convertByCapability ModelCapability.CapabilityBudgetOnly
      ⟨ThinkingMode.ModeBudget, b, ""⟩ = Except.ok ⟨ThinkingMode.ModeBudget, b, ""⟩ := by
    simp [convertByCapability]
  by_cases hb0 : b = 0
  · subst hb0
    have hpc : provider ≠ "claude" := fun h => hcl ⟨h, rfl⟩
    have hrw : rewriteSpecials ⟨ThinkingMode.ModeBudget, 0, ""⟩ =
        ⟨ThinkingMode.ModeNone, 0, ""⟩ := rfl
    refine ⟨finalizeConfig s provider ⟨ThinkingMode.ModeNone, 0, ""⟩, ?_, ?_, ?_⟩
    · simp only [ValidateConfig, hmi, hcap, hconv, hrw, hlv]
      simp
    · cases hZA : s.zeroAllowed with
      | false =>
        left
        simp only [finalizeConfig, ClampBudget]
        split_ifs <;> simp_all <;> omega
      | true =>
        right
        simp only [finalizeConfig, ClampBudget]
        split_ifs <;> simp_all
    · intro _ hZA
      simp only [finalizeConfig, ClampBudget]
      split_ifs <;> simp_all <;> omega
  · have hrw : rewriteSpecials ⟨ThinkingMode.ModeBudget, b, ""⟩ =
        ⟨ThinkingMode.ModeBudget, b, ""⟩ := by
      simp [rewriteSpecials, hb0]
    refine ⟨finalizeConfig s provider ⟨ThinkingMode.ModeBudget, b, ""⟩, ?_, ?_, ?_⟩
    · simp only [ValidateConfig, hmi, hcap, hconv, hrw, hlv]
      simp
    · have hclam := ClampBudget_mem b s hmin hmm hb
      simp only [finalizeConfig]
      rcases hclam with ⟨hz, hZA, hcv⟩ | ⟨h1, h2⟩ <;> simp_all
    · intro h
      exact absurd h hb0

/-- C3 witness: the amended statement at budget 0 on the budget-only test
model, where the produced budget is the minimum 128. -/
theorem C3_budget_clamp_amended_witness :
    ∃ c, ValidateConfig ⟨ThinkingMode.ModeBudget, 0, ""⟩ (some budgetOnlyModel) "gemini" =
        Except.ok c ∧
      (128 ≤ c.budget ∧ c.budget ≤ 20000) ∧ c.budget = 128 := by
  have h := C3_budget_clamp_amended 0
    { min := 128, max := 20000, levels := [], zeroAllowed := false, dynamicAllowed := true }
    "gemini" budgetOnlyModel rfl rfl (by norm_num) (by norm_num) (by norm_num)
    (fun hq => absurd hq.1 (by decide))
  simpa using h

/-- C10 counterexample: the model name gpt-gemini contains gemini, yet its
model group resolves to gpt (the gpt test runs first in GetModelGroup), so the
empty-text miss returns the empty string instead of the sentinel. -/
theorem C10_gemini_sentinel_counterexample :
    strContains "gpt-gemini" "gemini" = true ∧
    (GetCachedSignature (fun s => s) 0 "gpt-gemini" "" []).1 = "" := by
  exact ⟨by decide, by decide⟩

/-- C10 amended: for every model name whose model group is gemini (it contains
gemini and neither gpt nor claude), GetCachedSignature returns the sentinel
skip_thought_signature_validator on every miss: empty text, missing cache
entry (absent session or absent entry), or an entry older than the three-hour
TTL; for every model of any other group the same misses return the empty
string. -/
theorem C10_gemini_sentinel_amended (hashText : String → String) (now : Nat)
    (modelName text : String) (cache : SigCache)
    (hmiss : text = "" ∨
      (lookupSession cache (hashText (GetModelGroup modelName ++ "#" ++ text)) =
        Option.none) ∨
      (∃ es, lookupSession cache (hashText (GetModelGroup modelName ++ "#" ++ text)) =
          Option.some es ∧
        lookupEntry es (hashText (GetModelGroup modelName ++ "#" ++ text)) =
          Option.none) ∨
      (∃ es e, lookupSession cache (hashText (GetModelGroup modelName ++ "#" ++ text)) =
          Option.some es ∧
        lookupEntry es (hashText (GetModelGroup modelName ++ "#" ++ text)) =
          Option.some e ∧
        now - e.timestamp > SignatureCacheTTL)) :
    (GetCachedSignature hashText now modelName text cache).1 =
      (if GetModelGroup modelName = "gemini" then skipThoughtSignatureValidator else "") := by
  rcases hmiss with h | h | ⟨es, hes, hent⟩ | ⟨es, e, hes, hent, hexp⟩
  · simp [GetCachedSignature, h]
  · by_cases ht : text = ""
    · simp [GetCachedSignature, ht]
    · simp [GetCachedSignature, ht, h]
  · by_cases ht : text = ""
    · simp [GetCachedSignature, ht]
    · simp [GetCachedSignature, ht, hes, hent]
  · by_cases ht : text = ""
    · simp [GetCachedSignature, ht]
    · simp [GetCachedSignature, ht, hes, hent, hexp]

/-- C10 witness: a gemini-group model returns the sentinel on an empty cache. -/
theorem C10_gemini_sentinel_amended_witness :
    (GetCachedSignature (fun s => s) 0 "gemini-2.5-pro" "hello" []).1 =
      skipThoughtSignatureValidator := by
  have h := C10_gemini_sentinel_amended (fun s => s) 0 "gemini-2.5-pro" "hello" []
    (Or.inr (Or.inl rfl))
  rw [h, if_pos (by decide)]

/-- C8: resolving the claude-channel alias cs45 rewrites the request model to
the upstream name, but the metadata key model_mapping_original_model receives
the upstream name as well, not the original requested model cs45 that the
function documentation and the repository tests prescribe. -/
theorem C8_mapping_metadata_records_upstream :
    applyOAuthModelMapping claudeAliasTable claudeOAuthAuth "cs45" [] =
      ("claude-sonnet-4-5-20250929",
       [(ModelMappingOriginalModelMetadataKey, "claude-sonnet-4-5-20250929")]) ∧
    lookupStr (applyOAuthModelMapping claudeAliasTable claudeOAuthAuth "cs45" []).2
      ModelMappingOriginalModelMetadataKey ≠ "cs45" := by
  exact ⟨rfl, by decide⟩

/-- C5: applyClaudeToolPrefix leaves a tool_reference inside a nested
tool_result content array completely unchanged, and
stripClaudeToolPrefixFromResponse leaves prefixed tool_name fields of
tool_reference parts unchanged, although the repository tests
TestApplyClaudeToolPrefix_NestedToolReference and
TestStripClaudeToolPrefixFromResponse_WithToolReference require the nested
tool_name to be prefixed and the returned tool_name to be stripped. -/
theorem C5_tool_prefix_skips_nested_and_tool_name :
    applyClaudeToolPrefix nestedToolReferenceRequest claudeToolPrefix =
      nestedToolReferenceRequest ∧
    stripClaudeToolPrefixFromResponse toolReferenceResponse claudeToolPrefix =
      toolReferenceResponse := by
  exact ⟨rfl, rfl⟩

/-- Helper: an entry of a written inner map is an old entry or the new one. -/
theorem mem_setEntry {es : List (String × SignatureEntry)} {key : String}
    {e : SignatureEntry} {q : String × SignatureEntry}
    (hq : q ∈ setEntry es key e) : q ∈ es ∨ q.2 = e := by
  induction es with
  | nil => simp only [setEntry, List.mem_singleton] at hq; subst hq; exact Or.inr rfl
  | cons head rest ih =>
    obtain ⟨k, w⟩ := head
    simp only [setEntry] at hq
    split_ifs at hq with hk
    · rcases List.mem_cons.mp hq with h | h
      · subst h; exact Or.inr rfl
      · exact Or.inl (List.mem_cons_of_mem _ h)
    · rcases List.mem_cons.mp hq with h | h
      · exact Or.inl (h ▸ List.mem_cons_self _ _)
      · rcases ih h with h2 | h2
        · exact Or.inl (List.mem_cons_of_mem _ h2)
        · exact Or.inr h2

/-- Helper: an entry of a session of the written cache is an entry of the same
session of the old cache or the newly stored entry. -/
theorem mem_storeSession {cache : SigCache} {sessionKey entryKey : String}
    {e : SignatureEntry} {p : String × List (String × SignatureEntry)}
    {q : String × SignatureEntry}
    (hp : p ∈ storeSession cache sessionKey entryKey e) (hq : q ∈ p.2) :
    (∃ p0 ∈ cache, p0.1 = p.1 ∧ q ∈ p0.2) ∨ q.2 = e := by
  induction cache with
  | nil =>
    simp only [storeSession, List.mem_singleton] at hp
    subst hp
    simp only [List.mem_singleton] at hq
    subst hq
    exact Or.inr rfl
  | cons head rest ih =>
    obtain ⟨k, entries⟩ := head
    simp only [storeSession] at hp
    split_ifs at hp with hk
    · rcases List.mem_cons.mp hp with h | h
      · subst h
        rcases mem_setEntry hq with h2 | h2
        · exact Or.inl ⟨(k, entries), List.mem_cons_self _ _, rfl, h2⟩
        · exact Or.inr h2
      · exact Or.inl ⟨p, List.mem_cons_of_mem _ h, rfl, hq⟩
    · rcases List.mem_cons.mp hp with h | h
      · subst h
        exact Or.inl ⟨(k, entries), List.mem_cons_self _ _, rfl, hq⟩
      · rcases ih h with ⟨p0, hp0, hkey, hq0⟩ | h2
        · exact Or.inl ⟨p0, List.mem_cons_of_mem _ hp0, hkey, hq0⟩
        · exact Or.inr h2

/-- Helper: a successful session lookup names a member of the cache. -/
theorem lookupSession_mem {cache : SigCache} {key : String}
    {es : List (String × SignatureEntry)}
    (h : lookupSession cache key = Option.some es) : (key, es) ∈ cache := by
  induction cache with
  | nil => simp [lookupSession] at h
  | cons head rest ih =>
    obtain ⟨k, entries⟩ := head
    simp only [lookupSession] at h
    split_ifs at h with hk
    · obtain rfl := Option.some.inj h
      subst hk
      exact List.mem_cons_self _ _
    · exact List.mem_cons_of_mem _ (ih h)

/-- Helper: a successful entry lookup names a member of the inner map. -/
theorem lookupEntry_mem {es : List (String × SignatureEntry)} {key : String}
    {e : SignatureEntry}
    (h : lookupEntry es key = Option.some e) : (key, e) ∈ es := by
  induction es with
  | nil => simp [lookupEntry] at h
  | cons head rest ih =>
    obtain ⟨k, w⟩ := head
    simp only [lookupEntry] at h
    split_ifs at h with hk
    · obtain rfl := Option.some.inj h
      subst hk
      exact List.mem_cons_self _ _
    · exact List.mem_cons_of_mem _ (ih h)

/-- C9: for every model name, non-empty text and signature shorter than
MinValidSignatureLen bytes, CacheSignature leaves the cache completely
unchanged, so a subsequent GetCachedSignature sees exactly the original cache;
moreover CacheSignature only ever stores signatures of at least
MinValidSignatureLen bytes, and on such a cache GetCachedSignature only ever
returns the miss value or a signature of at least MinValidSignatureLen
bytes. -/
theorem C9_short_signature_never_cached (hashText : String → String)
    (now now2 : Nat) (modelName text signature : String) (cache : SigCache)
    (htext : text ≠ "")
    (hshort : signature.utf8ByteSize < MinValidSignatureLen) :
    CacheSignature hashText now modelName text signature cache = cache ∧
    GetCachedSignature hashText now2 modelName text
        (CacheSignature hashText now modelName text signature cache) =
      GetCachedSignature hashText now2 modelName text cache ∧
    (∀ (now3 : Nat) (sig2 : String) (cache2 : SigCache), allLong cache2 →
      allLong (CacheSignature hashText now3 modelName text sig2 cache2)) ∧
    (∀ (now3 : Nat) (text2 : String) (cache2 : SigCache), allLong cache2 →
      (GetCachedSignature hashText now3 modelName text2 cache2).1 =
          (if GetModelGroup modelName = "gemini" then skipThoughtSignatureValidator
           else "") ∨
      MinValidSignatureLen ≤
        (GetCachedSignature hashText now3 modelName text2 cache2).1.utf8ByteSize) := by
  have hframe : CacheSignature hashText now modelName text signature cache = cache := by
    simp only [CacheSignature]
    split_ifs <;> first | rfl | omega
  refine ⟨hframe, by rw [hframe], ?_, ?_⟩
  · intro now3 sig2 cache2 hlong
    simp only [CacheSignature]
    split_ifs with h1 h2
    · exact hlong
    · exact hlong
    · intro p hp q hq
      rcases mem_storeSession hp hq with ⟨p0, hp0, _, hq0⟩ | h2
      · exact hlong p0 hp0 q hq0
      · rw [h2]
        show MinValidSignatureLen ≤ sig2.utf8ByteSize
        omega
  · intro now3 text2 cache2 hlong
    by_cases ht : text2 = ""
    · left; simp [GetCachedSignature, ht]
    · cases hses : lookupSession cache2
          (hashText (GetModelGroup modelName ++ "#" ++ text2)) with
      | none => left; simp [GetCachedSignature, ht, hses]
      | some es =>
        cases hent : lookupEntry es
            (hashText (GetModelGroup modelName ++ "#" ++ text2)) with
        | none => left; simp [GetCachedSignature, ht, hses, hent]
        | some e =>
          by_cases hexp : now3 - e.timestamp > SignatureCacheTTL
          · left; simp [GetCachedSignature, ht, hses, hent, hexp]
          · right
            have h1 : (GetCachedSignature hashText now3 modelName text2 cache2).1 =
                e.signature := by
              simp [GetCachedSignature, ht, hses, hent, hexp]
            rw [h1]
            exact hlong _ (lookupSession_mem hses) _ (lookupEntry_mem hent)

/-- C9 witness: a five-byte signature leaves the empty cache empty. -/
theorem C9_short_signature_never_cached_witness :
    CacheSignature (fun s => s) 5 "claude-x" "t" "short" [] = [] :=
  (C9_short_signature_never_cached (fun s => s) 5 7 "claude-x" "t" "short" []
    (by decide) (by decide)).1

/-- Helper: writing a key makes it readable. -/
theorem lookupField_setFieldList_self (fs : List (String × Json)) (key : String)
    (v : Json) : lookupField (setFieldList fs key v) key = Option.some v := by
  induction fs with
  | nil => simp [setFieldList, lookupField]
  | cons head rest ih =>
    obtain ⟨k, w⟩ := head
    simp only [setFieldList]
    split_ifs with hk
    · simp [lookupField, hk]
    · simp [lookupField, hk, ih]

/-- Helper: a field write is visible through getField. -/
theorem getField_setField_self (j : Json) (key : String) (v : Json) :
    (j.setField key v).getField key = Option.some v := by
  cases j <;> simp [Json.setField, Json.getField, lookupField, lookupField_setFieldList_self]

/-- Helper: a key whose binding count is zero never resolves. -/
theorem lookupField_eq_none_of_countKey_zero (fs : List (String × Json)) (key : String)
    (h : countKey fs key = 0) : lookupField fs key = Option.none := by
  induction fs with
  | nil => rfl
  | cons head rest ih =>
    obtain ⟨k, w⟩ := head
    by_cases hk : k = key
    · subst hk
      simp [countKey] at h
    · simp only [lookupField, hk, if_false]
      apply ih
      simpa [countKey, hk] using h

/-- Helper: deleting the only binding of a key removes it for lookups. -/
theorem lookupField_delFieldList (fs : List (String × Json)) (key : String)
    (h : countKey fs key ≤ 1) : lookupField (delFieldList fs key) key = Option.none := by
  induction fs with
  | nil => rfl
  | cons head rest ih =>
    obtain ⟨k, w⟩ := head
    simp only [delFieldList]
    split_ifs with hk
    · subst hk
      apply lookupField_eq_none_of_countKey_zero
      simp [countKey] at h
      omega
    · simp only [lookupField, hk, if_false]
      apply ih
      simpa [countKey, hk] using h

/-- Helper: a path write is visible through getPath. -/
theorem getPath_setPath_self (j : Json) (path : List String) (v : Json) :
    (j.setPath path v).getPath path = Option.some v := by
  induction path generalizing j with
  | nil => rfl
  | cons key rest ih =>
    have hstep : j.setPath (key :: rest) v =
        j.setField key ((match j.getField key with
          | Option.some c => c
          | Option.none => Json.obj []).setPath rest v) := rfl
    rw [hstep]
    simp [Json.getPath, getField_setField_self, ih]

/-- Helper: after delPath on a three-segment object path whose final object
holds at most one binding of the final key, the path no longer resolves. -/
theorem getPath_delPath_three (j : Json) (a b c : String)
    (h : ∀ fields, j.getPath [a, b] = Option.some (Json.obj fields) →
      countKey fields c ≤ 1) :
    (j.delPath [a, b, c]).getPath [a, b, c] = Option.none := by
  cases hja : j.getField a with
  | none =>
    have hstep : j.delPath [a, b, c] = j := by
      simp [Json.delPath, hja]
    rw [hstep]
    simp [Json.getPath, hja]
  | some child =>
    have hstep : j.delPath [a, b, c] = j.setField a (child.delPath [b, c]) := by
      simp [Json.delPath, hja]
    have hread : (j.setField a (child.delPath [b, c])).getPath [a, b, c] =
        (child.delPath [b, c]).getPath [b, c] := by
      simp [Json.getPath, getField_setField_self]
    rw [hstep, hread]
    cases hjb : child.getField b with
    | none =>
      have hstep2 : child.delPath [b, c] = child := by
        simp [Json.delPath, hjb]
      rw [hstep2]
      simp [Json.getPath, hjb]
    | some c2 =>
      have hstep2 : child.delPath [b, c] = child.setField b (c2.delField c) := by
        simp [Json.delPath, hjb]
      have hread2 : (child.setField b (c2.delField c)).getPath [b, c] =
          (c2.delField c).getPath [c] := by
        simp [Json.getPath, getField_setField_self]
      rw [hstep2, hread2]
      cases c2 with
      | obj fields =>
        have hcount : countKey fields c ≤ 1 := by
          apply h
          simp [Json.getPath, hja, hjb]
        simp [Json.delField, Json.getPath, Json.getField,
          lookupField_delFieldList fields c hcount]
      | null => simp [Json.delField, Json.getPath, Json.getField]
      | bool v => simp [Json.delField, Json.getPath, Json.getField]
      | num v => simp [Json.delField, Json.getPath, Json.getField]
      | str v => simp [Json.delField, Json.getPath, Json.getField]
      | arr v => simp [Json.delField, Json.getPath, Json.getField]

/-- C6: on a Claude-on-Antigravity model, a numeric thinking budget at least
the effective maxOutputTokens is capped to that value minus one; when the
request carries no maxOutputTokens the model default MaxCompletionTokens
becomes the cap and is written into the outbound payload; and when the capped
budget is non-negative but below the model Thinking.Min, the sentinel -2 is
returned and request.generationConfig.thinkingConfig no longer resolves in
the outbound payload. -/
theorem C6_antigravity_claude_budget_clamp (payload : Json) (mi : ModelInfo)
    (s : ThinkingSupport) (budget : Int) (em : Int × Bool) (capped : Int)
    (hsup : mi.thinking = some s)
    (hem : em = effectiveMaxTokens payload (some mi))
    (hcap : capped = if em.1 > 0 ∧ budget ≥ em.1 then em.1 - 1 else budget)
    (hnodup : ∀ fields, payload.getPath ["request", "generationConfig"] =
      Option.some (Json.obj fields) → countKey fields "thinkingConfig" ≤ 1) :
    ((em.1 > 0 ∧ budget ≥ em.1 ∧ ¬ (s.min > 0 ∧ capped ≥ 0 ∧ capped < s.min)) →
      (normalizeClaudeBudget budget payload (some mi)).1 = em.1 - 1) ∧
    ((payload.getPath ["request", "generationConfig", "maxOutputTokens"] = Option.none ∧
        mi.maxCompletionTokens > 0 ∧ ¬ (s.min > 0 ∧ capped ≥ 0 ∧ capped < s.min)) →
      em.1 = mi.maxCompletionTokens ∧
      (normalizeClaudeBudget budget payload (some mi)).2.getPath
          ["request", "generationConfig", "maxOutputTokens"] =
        Option.some (Json.num mi.maxCompletionTokens)) ∧
    ((s.min > 0 ∧ capped ≥ 0 ∧ capped < s.min) →
      (normalizeClaudeBudget budget payload (some mi)).1 = -2 ∧
      (normalizeClaudeBudget budget payload (some mi)).2.getPath
          ["request", "generationConfig", "thinkingConfig"] = Option.none) := by
  have hunf : normalizeClaudeBudget budget payload (some mi) =
      if s.min > 0 ∧ capped ≥ 0 ∧ capped < s.min then
        (-2, payload.delPath ["request", "generationConfig", "thinkingConfig"])
      else
        (capped,
         if em.2 ∧ em.1 > 0 then
           payload.setPath ["request", "generationConfig", "maxOutputTokens"]
             (Json.num em.1)
         else payload) := by
    simp only [normalizeClaudeBudget, hsup, ← hem, ← hcap]
  refine ⟨?_, ?_, ?_⟩
  · intro ⟨hpos, hge, hnomin⟩
    rw [hunf, if_neg hnomin]
    show capped = em.1 - 1
    rw [hcap, if_pos ⟨hpos, hge⟩]
  · intro ⟨habs, hdef, hnomin⟩
    have hem2 : em = (mi.maxCompletionTokens, true) := by
      rw [hem]
      simp only [effectiveMaxTokens, habs]
      rw [if_pos hdef]
    refine ⟨by rw [hem2], ?_⟩
    rw [hunf, if_neg hnomin]
    show (if em.2 ∧ em.1 > 0 then
        payload.setPath ["request", "generationConfig", "maxOutputTokens"]
          (Json.num em.1)
      else payload).getPath ["request", "generationConfig", "maxOutputTokens"] = _
    rw [if_pos (by rw [hem2]; exact ⟨rfl, hdef⟩)]
    rw [hem2]
    exact getPath_setPath_self payload ["request", "generationConfig", "maxOutputTokens"]
      (Json.num mi.maxCompletionTokens)
  · intro hmin
    rw [hunf, if_pos hmin]
    exact ⟨rfl, getPath_delPath_three payload "request" "generationConfig"
      "thinkingConfig" hnodup⟩

/-- C6 witness: the spec scenario with maxOutputTokens 4000 and thinkingBudget
5000 on the Claude-on-Antigravity test model caps the budget to 3999. -/
theorem C6_antigravity_claude_budget_clamp_witness :
    (normalizeClaudeBudget 5000 antigravityClaudePayload
      (some antigravityClaudeModel)).1 = 4000 - 1 := by
  have h := (C6_antigravity_claude_budget_clamp antigravityClaudePayload
    antigravityClaudeModel
    { min := 1024, max := 16000, levels := [], zeroAllowed := false,
      dynamicAllowed := false }
    5000 (4000, false) 3999 rfl rfl (by norm_num)
    (by
      intro fields hf
      have h2 : Json.obj [("maxOutputTokens", Json.num 4000),
          ("thinkingConfig", Json.obj [("thinkingBudget", Json.num 5000)])] =
          Json.obj fields := Option.some.inj hf
      obtain rfl := Json.obj.inj h2
      decide)).1
  exact h ⟨by norm_num, by norm_num, by decide⟩

/-- Helper: the forwarding loop performs at most 1 + maxRetries ExecuteStream
invocations when started with used retries already consumed. -/
theorem runStreamLoop_calls_le (retry : Nat → ExecResult) (maxRetries : Nat)
    (chunks : List StreamChunk) (sent : Bool) (used : Nat) (accP : List String)
    (accR : List Int) :
    used ≤ maxRetries →
      (runStreamLoop retry maxRetries chunks sent used accP accR).calls ≤ 1 + maxRetries := by
  induction chunks, sent, used, accP, accR using runStreamLoop.induct retry maxRetries with
  | case1 sent used accP accR =>
    intro hused
    simp only [runStreamLoop]
    omega
  | case2 data rest sent used accP accR hdata ih =>
    intro hused
    simp only [runStreamLoop, if_pos hdata]
    exact ih hused
  | case3 data rest sent used accP accR hdata ih =>
    intro hused
    simp only [runStreamLoop, if_neg hdata]
    exact ih hused
  | case4 s rest sent used accP accR hguard newChunks hretry ih =>
    intro _
    simp only [runStreamLoop, if_pos hguard, hretry]
    exact ih (by omega)
  | case5 s rest sent used accP accR hguard s2 hretry =>
    intro _
    simp only [runStreamLoop, if_pos hguard, hretry]
    omega
  | case6 s rest sent used accP accR hguard =>
    intro hused
    simp only [runStreamLoop, if_neg hguard]
    omega

/-- Helper: every status the forwarding loop logs as retry-triggering is
bootstrap-eligible. -/
theorem runStreamLoop_retried_eligible (retry : Nat → ExecResult) (maxRetries : Nat)
    (chunks : List StreamChunk) (sent : Bool) (used : Nat) (accP : List String)
    (accR : List Int) :
    (∀ x ∈ accR, bootstrapEligible x = true) →
      ∀ x ∈ (runStreamLoop retry maxRetries chunks sent used accP accR).retried,
        bootstrapEligible x = true := by
  induction chunks, sent, used, accP, accR using runStreamLoop.induct retry maxRetries with
  | case1 sent used accP accR =>
    intro hacc x hx
    simp only [runStreamLoop, List.mem_reverse] at hx
    exact hacc x hx
  | case2 data rest sent used accP accR hdata ih =>
    intro hacc
    simp only [runStreamLoop, if_pos hdata]
    exact ih hacc
  | case3 data rest sent used accP accR hdata ih =>
    intro hacc
    simp only [runStreamLoop, if_neg hdata]
    exact ih hacc
  | case4 s rest sent used accP accR hguard newChunks hretry ih =>
    intro hacc
    simp only [runStreamLoop, if_pos hguard, hretry]
    refine ih ?_
    intro x hx
    rcases List.mem_cons.mp hx with rfl | hx
    · exact hguard.2.2
    · exact hacc x hx
  | case5 s rest sent used accP accR hguard s2 hretry =>
    intro hacc x hx
    simp only [runStreamLoop, if_pos hguard, hretry, List.mem_reverse] at hx
    rcases List.mem_cons.mp hx with rfl | hx
    · exact hguard.2.2
    · exact hacc x hx
  | case6 s rest sent used accP accR hguard =>
    intro hacc x hx
    simp only [runStreamLoop, if_neg hguard, List.mem_reverse] at hx
    exact hacc x hx

/-- C1: the handler facade makes at most 1 + BootstrapRetries upstream stream
requests for one client stream; every ExecuteStream re-invocation is
triggered by an error whose status is bootstrap-eligible (0, 401, 402, 403,
408, 429 or at least 500); and once a payload byte has been forwarded an
error chunk is emitted on the error channel and the stream terminates with no
further ExecuteStream invocation. -/
theorem C1_stream_bootstrap_retry (cfgRetries : Option Int) (first : ExecResult)
    (retry : Nat → ExecResult) (maxRetries : Nat)
    (hmax : maxRetries = (StreamingBootstrapRetries cfgRetries).toNat) :
    ((ExecuteStreamWithAuthManager first retry maxRetries).calls : Int) ≤
      1 + StreamingBootstrapRetries cfgRetries ∧
    (∀ x ∈ (ExecuteStreamWithAuthManager first retry maxRetries).retried,
      bootstrapEligible x = true) ∧
    (∀ (s : Int) (rest : List StreamChunk) (used : Nat) (accP : List String)
      (accR : List Int),
      runStreamLoop retry maxRetries (StreamChunk.err s :: rest) true used accP accR =
        ⟨accP.reverse, Option.some s, 1 + used, accR.reverse⟩) := by
  have hnn : 0 ≤ StreamingBootstrapRetries cfgRetries := by
    simp only [StreamingBootstrapRetries]
    split_ifs <;> omega
  have hcast : (maxRetries : Int) = StreamingBootstrapRetries cfgRetries := by
    rw [hmax, Int.toNat_of_nonneg hnn]
  refine ⟨?_, ?_, ?_⟩
  · rw [← hcast]
    cases first with
    | failed s =>
      simp only [ExecuteStreamWithAuthManager]
      omega
    | stream chunks =>
      simp only [ExecuteStreamWithAuthManager]
      have h := runStreamLoop_calls_le retry maxRetries chunks false 0 [] []
        (Nat.zero_le _)
      omega
  · cases first with
    | failed s =>
      intro x hx
      simp only [ExecuteStreamWithAuthManager, List.not_mem_nil] at hx
    | stream chunks =>
      intro x hx
      exact runStreamLoop_retried_eligible retry maxRetries chunks false 0 [] []
        (by intro y hy; simp at hy) x hx
  · intro s rest used accP accR
    simp [runStreamLoop]

/-- C1 witness: with BootstrapRetries 1, a first stream failing with 401 and a
retry delivering the payload ok, the client sees exactly ok with no error and
the executor is invoked twice, within the bound. -/
theorem C1_stream_bootstrap_retry_witness :
    ExecuteStreamWithAuthManager (ExecResult.stream [StreamChunk.err 401])
        (fun _ => ExecResult.stream [StreamChunk.payload "ok"]) 1 =
      ⟨["ok"], Option.none, 2, [401]⟩ ∧
    ((ExecuteStreamWithAuthManager (ExecResult.stream [StreamChunk.err 401])
        (fun _ => ExecResult.stream [StreamChunk.payload "ok"]) 1).calls : Int) ≤
      1 + StreamingBootstrapRetries (some 1) := by
  constructor
  · simp [ExecuteStreamWithAuthManager, runStreamLoop, bootstrapEligible, statusFromError]
  · exact (C1_stream_bootstrap_retry (some 1) (ExecResult.stream [StreamChunk.err 401])
      (fun _ => ExecResult.stream [StreamChunk.payload "ok"]) 1 rfl).1

/-- Helper: the best-candidate fold returns the initial option or a member. -/
theorem selectBest_mem_aux (l : List Candidate) (acc : Option Candidate) (c : Candidate)
    (h : l.foldl
      (fun best x =>
        match best with
        | Option.none => Option.some x
        | Option.some b => if candidateBefore x b then Option.some x else Option.some b)
      acc = Option.some c) : acc = Option.some c ∨ c ∈ l := by
  induction l generalizing acc with
  | nil => exact Or.inl h
  | cons d rest ih =>
    rcases ih _ h with hstep | hmem
    · cases acc with
      | none =>
        simp only at hstep
        obtain rfl := Option.some.inj hstep
        exact Or.inr (List.mem_cons_self _ _)
      | some b =>
        simp only at hstep
        split_ifs at hstep with hb
        · obtain rfl := Option.some.inj hstep
          exact Or.inr (List.mem_cons_self _ _)
        · exact Or.inl hstep
    · exact Or.inr (List.mem_cons_of_mem _ hmem)

/-- Helper: a selected best candidate is a member of the list. -/
theorem selectBest_mem {l : List Candidate} {c : Candidate}
    (h : selectBest l = Option.some c) : c ∈ l := by
  rcases selectBest_mem_aux l Option.none c h with hn | hm
  · cases hn
  · exact hm

/-- Helper: the best-candidate fold on a started accumulator never drops back
to none. -/
theorem selectBest_ne_none_aux (l : List Candidate) (b : Candidate) :
    l.foldl
      (fun best x =>
        match best with
        | Option.none => Option.some x
        | Option.some b => if candidateBefore x b then Option.some x else Option.some b)
      (Option.some b) ≠ Option.none := by
  induction l generalizing b with
  | nil => simp
  | cons d rest ih =>
    simp only [List.foldl_cons]
    split_ifs <;> exact ih _

/-- Helper: only the empty list has no best candidate. -/
theorem selectBest_eq_none {l : List Candidate}
    (h : selectBest l = Option.none) : l = [] := by
  cases l with
  | nil => rfl
  | cons d rest =>
    exfalso
    exact selectBest_ne_none_aux rest d h

/-- Helper: insertion keeps exactly the old members plus the new one. -/
theorem mem_insertById {c x : Candidate} {l : List Candidate}
    (h : x ∈ insertById c l) : x = c ∨ x ∈ l := by
  induction l with
  | nil => simpa [insertById] using h
  | cons d rest ih =>
    simp only [insertById] at h
    split_ifs at h with hle
    · rcases List.mem_cons.mp h with h1 | h1
      · exact Or.inl h1
      · exact Or.inr h1
    · rcases List.mem_cons.mp h with h1 | h1
      · exact Or.inr (h1 ▸ List.mem_cons_self _ _)
      · rcases ih h1 with h2 | h2
        · exact Or.inl h2
        · exact Or.inr (List.mem_cons_of_mem _ h2)

/-- Helper: sorting preserves membership. -/
theorem mem_sortById {x : Candidate} {l : List Candidate}
    (h : x ∈ sortById l) : x ∈ l := by
  induction l with
  | nil => simpa [sortById] using h
  | cons d rest ih =>
    simp only [sortById, List.foldr_cons] at h
    rcases mem_insertById h with h1 | h1
    · exact h1 ▸ List.mem_cons_self _ _
    · exact List.mem_cons_of_mem _ (ih h1)

/-- C2: under both modelled selectors a candidate pair whose NextRetryAfter
lies in the future is returned only when every candidate is cooling (so never
while a lower-priority alternative exists); in particular, with a
high-priority auth cooling on the requested model and an active low-priority
auth, fill-first returns the low-priority auth. -/
theorem C2_selector_cooldown (now counter : Nat) (cands : List Candidate)
    (c : Candidate) :
    ((fillFirstPick now cands = Option.some c → isCooling now c = true →
        ∀ d ∈ cands, isCooling now d = true) ∧
     (roundRobinPick now counter cands = Option.some c → isCooling now c = true →
        ∀ d ∈ cands, isCooling now d = true)) ∧
    fillFirstPick 1000 [coolingHigh, activeLow] = Option.some activeLow := by
  have hall : cands.filter (fun x => ¬ isCooling now x) = [] →
      ∀ d ∈ cands, isCooling now d = true := by
    intro hemp d hd
    by_contra hnc
    have : d ∈ cands.filter (fun x => ¬ isCooling now x) := by
      simp [List.mem_filter, hd, hnc]
    rw [hemp] at this
    cases this
  refine ⟨⟨?_, ?_⟩, by decide⟩
  · intro hpick hcool
    simp only [fillFirstPick] at hpick
    cases hsel : selectBest (cands.filter (fun x => ¬ isCooling now x)) with
    | some c2 =>
      rw [hsel] at hpick
      obtain rfl := Option.some.inj hpick
      have hmem := selectBest_mem hsel
      rw [List.mem_filter] at hmem
      simp [hcool] at hmem
    | none =>
      exact hall (selectBest_eq_none hsel)
  · intro hpick hcool
    simp only [roundRobinPick] at hpick
    cases hsel : selectBest (cands.filter (fun x => ¬ isCooling now x)) with
    | some top =>
      rw [hsel] at hpick
      have hmem : c ∈ sortById ((cands.filter (fun x => ¬ isCooling now x)).filter
          (fun x => x.priority = top.priority)) := by
        exact List.getElem?_mem hpick
      have hmem2 := List.mem_filter.mp (mem_sortById hmem)
      have hmem3 := List.mem_filter.mp hmem2.1
      simp [hcool] at hmem3
    | none =>
      exact hall (selectBest_eq_none hsel)

/-- C2 witness: the fill-first invariant applied to a single cooling
candidate, which is returned only because no alternative exists. -/
theorem C2_selector_cooldown_witness :
    ∀ d ∈ [Candidate.mk "only" 0 99], isCooling 10 d = true :=
  ((C2_selector_cooldown 10 0 [Candidate.mk "only" 0 99]
    (Candidate.mk "only" 0 99)).1).1 (by decide) (by decide)

/-- Helper: the fixed points of ClampBudget. -/
theorem ClampBudget_fixed_point (v : Int) (s : ThinkingSupport)
    (hwf : (0 < s.min ∧ s.min ≤ s.max) ∨ (s.min = 0 ∧ s.max = 0))
    (h : v = -1 ∨ (v = 0 ∧ s.zeroAllowed = true) ∨ (s.min = 0 ∧ s.max = 0) ∨
      (s.min ≤ v ∧ v ≤ s.max)) :
    ClampBudget v (some s) = v := by
  simp only [ClampBudget]
  split_ifs <;> simp_all <;> omega

/-- Helper: ClampBudget always lands in its fixed-point set. -/
theorem ClampBudget_lands (b : Int) (s : ThinkingSupport)
    (hwf : (0 < s.min ∧ s.min ≤ s.max) ∨ (s.min = 0 ∧ s.max = 0)) :
    ClampBudget b (some s) = -1 ∨
    (ClampBudget b (some s) = 0 ∧ s.zeroAllowed = true) ∨
    (s.min = 0 ∧ s.max = 0) ∨
    (s.min ≤ ClampBudget b (some s) ∧ ClampBudget b (some s) ≤ s.max) := by
  simp only [ClampBudget]
  split_ifs <;> simp_all <;> omega

/-- Helper: idempotence of ClampBudget on well-ordered or absent ranges. -/
theorem ClampBudget_fix (b : Int) (s : ThinkingSupport)
    (hwf : (0 < s.min ∧ s.min ≤ s.max) ∨ (s.min = 0 ∧ s.max = 0)) :
    ClampBudget (ClampBudget b (some s)) (some s) = ClampBudget b (some s) :=
  ClampBudget_fixed_point (ClampBudget b (some s)) s hwf (ClampBudget_lands b s hwf)

/-- Helper: ClampBudget maps non-zero inputs to non-zero outputs on
well-ordered or absent ranges. -/
theorem ClampBudget_ne_zero (b : Int) (s : ThinkingSupport)
    (hwf : (0 < s.min ∧ s.min ≤ s.max) ∨ (s.min = 0 ∧ s.max = 0))
    (hb : b ≠ 0) : ClampBudget b (some s) ≠ 0 := by
  simp only [ClampBudget]
  split_ifs <;> simp_all <;> omega

/-- Helper: a level-only classification forces empty range and some levels. -/
theorem detect_levelOnly (s : ThinkingSupport)
    (h : detectModelCapability s = ModelCapability.CapabilityLevelOnly) :
    s.levels ≠ [] ∧ s.min = 0 ∧ s.max = 0 := by
  by_cases h2 : s.levels = []
  · simp [detectModelCapability, h2] at h
  · by_cases h3 : s.min = 0 ∧ s.max = 0
    · exact ⟨h2, h3.1, h3.2⟩
    · exfalso
      have hh : detectModelCapability s = ModelCapability.CapabilityHybrid := by
        simp only [detectModelCapability]
        rw [if_pos ⟨h2, by tauto⟩]
      rw [hh] at h
      cases h

/-- Helper: non-empty levels rule out the budget-only classification. -/
theorem detect_ne_budgetOnly (s : ThinkingSupport) (h : s.levels ≠ []) :
    detectModelCapability s ≠ ModelCapability.CapabilityBudgetOnly := by
  simp only [detectModelCapability]
  split_ifs with h1 h2 <;> simp_all

/-- Helper: facts about the capability conversion block needed downstream:
under a level-only model the output mode is never Budget, and under a
budget-only model a Level output can only be the auto level. -/
theorem convertByCapability_facts (cap : ModelCapability) (cfg n1 : ThinkingConfig)
    (h : convertByCapability cap cfg = Except.ok n1) :
    (cap = ModelCapability.CapabilityLevelOnly → n1.mode ≠ ThinkingMode.ModeBudget) ∧
    (cap = ModelCapability.CapabilityBudgetOnly → n1.mode = ThinkingMode.ModeLevel →
      n1.level = LevelAuto) := by
  cases cap with
  | CapabilityBudgetOnly =>
    refine ⟨by simp, ?_⟩
    intro _ hm
    simp only [convertByCapability] at h
    split_ifs at h with h1 h2
    · obtain rfl := Except.ok.inj h
      exact h2
    · cases hcv : ConvertLevelToBudget cfg.level with
      | none => rw [hcv] at h; cases h
      | some b =>
        rw [hcv] at h
        obtain rfl := Except.ok.inj h
        cases hm
    · obtain rfl := Except.ok.inj h
      exact absurd hm h1
  | CapabilityLevelOnly =>
    refine ⟨?_, by simp⟩
    intro _ hm
    simp only [convertByCapability] at h
    split_ifs at h with h1
    · cases hcv : ConvertBudgetToLevel cfg.budget with
      | none => rw [hcv] at h; cases h
      | some l =>
        rw [hcv] at h
        obtain rfl := Except.ok.inj h
        cases hm
    · obtain rfl := Except.ok.inj h
      exact h1 hm
  | CapabilityHybrid => exact ⟨by simp, by simp⟩

/-- Helper: facts about the special-value rewrites: a Budget output kept its
mode and has a non-zero budget, and a Level output is the unchanged input
with a level that is neither none nor auto. -/
theorem rewriteSpecials_facts (n1 : ThinkingConfig) :
    ((rewriteSpecials n1).mode = ThinkingMode.ModeBudget →
      n1.mode = ThinkingMode.ModeBudget ∧ (rewriteSpecials n1).budget ≠ 0) ∧
    ((rewriteSpecials n1).mode = ThinkingMode.ModeLevel →
      rewriteSpecials n1 = n1 ∧ (rewriteSpecials n1).level ≠ LevelNone ∧
      (rewriteSpecials n1).level ≠ LevelAuto) := by
  simp only [rewriteSpecials]
  split_ifs <;> simp_all <;> tauto

/-- Helper: the auto mid-range fallback lands in the final-block shape. -/
theorem convertAuto_midok (n2 : ThinkingConfig) (s : ThinkingSupport)
    (hwf : wellFormedSupport s) (hdyn : s.dynamicAllowed = false) :
    MidOK s (convertAutoToMidRange n2 s) := by
  obtain ⟨hw1, hw2, hw3⟩ := hwf
  simp only [convertAutoToMidRange]
  split_ifs with h1 h2 h3
  · refine ⟨by simp, ?_, by simp⟩
    intro _
    refine ⟨by decide, by decide, ?_, detect_ne_budgetOnly s h1.1⟩
    intro _
    exact hw3 ⟨h1.2.1, h1.2.2, h1.1, hdyn⟩
  · exact ⟨by simp, by simp, by simp⟩
  · exfalso
    rcases hw1 with ⟨hlo, hord⟩ | ⟨hm0, hx0⟩
    · omega
    · have hlv : s.levels = [] := by
        by_contra hc
        exact h1 ⟨hc, hm0, hx0⟩
      exact h2 ⟨h3, hw2 ⟨hm0, hx0, hlv, hdyn⟩⟩
  · refine ⟨?_, by simp, by simp⟩
    intro _
    constructor
    · intro hz
      have hz2 : (s.min + s.max) / 2 = 0 := hz
      omega
    · intro hcap
      obtain ⟨hlv, hm0, hx0⟩ := detect_levelOnly s hcap
      exact h1 ⟨hlv, hm0, hx0⟩

/-- Helper: every configuration reaching the final block of ValidateConfig
satisfies MidOK. -/
theorem midok_pipeline (cfg n1 : ThinkingConfig) (s : ThinkingSupport)
    (hwf : wellFormedSupport s)
    (hconv : convertByCapability (detectModelCapability s) cfg = Except.ok n1)
    (hchk : ¬ (s.levels ≠ [] ∧ (rewriteSpecials n1).mode = ThinkingMode.ModeLevel ∧
      ¬ isLevelSupported (rewriteSpecials n1).level s.levels = true)) :
    MidOK s (if (rewriteSpecials n1).mode = ThinkingMode.ModeAuto ∧
        ¬ s.dynamicAllowed then convertAutoToMidRange (rewriteSpecials n1) s
      else rewriteSpecials n1) := by
  obtain ⟨hcv1, hcv2⟩ := convertByCapability_facts _ cfg n1 hconv
  obtain ⟨hrw1, hrw2⟩ := rewriteSpecials_facts n1
  split_ifs with hauto
  · have hdyn : s.dynamicAllowed = false := by
      rcases hauto with ⟨_, hnd⟩
      simpa using hnd
    exact convertAuto_midok (rewriteSpecials n1) s hwf hdyn
  · refine ⟨?_, ?_, ?_⟩
    · intro hm
      obtain ⟨hn1m, hnz⟩ := hrw1 hm
      refine ⟨hnz, ?_⟩
      intro hcap
      exact hcv1 hcap (by rw [hn1m])
    · intro hm
      obtain ⟨heq, hnn, hna⟩ := hrw2 hm
      refine ⟨hnn, hna, ?_, ?_⟩
      · intro hlv
        by_contra hns
        exact hchk ⟨hlv, hm, by simpa using hns⟩
      · intro hcap
        have hlv : n1.level = LevelAuto := hcv2 hcap (by rw [← heq]; exact hm)
        apply hna
        rw [heq, hlv]
    · intro hm
      by_cases hd : s.dynamicAllowed
      · exact hd
      · exact absurd ⟨hm, by simpa using hd⟩ hauto

/-- Helper: the final block on a ModeNone config under the claude provider. -/
theorem finalizeConfig_none_claude (s : ThinkingSupport) (provider : String)
    (n3 : ThinkingConfig) (hm : n3.mode = ThinkingMode.ModeNone)
    (hp : provider = "claude") :
    finalizeConfig s provider n3 = { n3 with budget := 0, level := "" } := by
  simp [finalizeConfig, hm, hp]

/-- Helper: the final block on a ModeNone config under other providers. -/
theorem finalizeConfig_none_other (s : ThinkingSupport) (provider : String)
    (n3 : ThinkingConfig) (hm : n3.mode = ThinkingMode.ModeNone)
    (hp : provider ≠ "claude") :
    finalizeConfig s provider n3 =
      (if ClampBudget n3.budget (some s) > 0 ∧ s.levels ≠ [] then
        { n3 with budget := ClampBudget n3.budget (some s),
                  level := s.levels.headD "" }
      else { n3 with budget := ClampBudget n3.budget (some s) }) := by
  simp [finalizeConfig, hm, hp]

/-- Helper: the final block on a ModeBudget config. -/
theorem finalizeConfig_budget (s : ThinkingSupport) (provider : String)
    (n3 : ThinkingConfig) (hm : n3.mode = ThinkingMode.ModeBudget) :
    finalizeConfig s provider n3 =
      { n3 with budget := ClampBudget n3.budget (some s) } := by
  simp [finalizeConfig, hm]

/-- Helper: the final block on a ModeAuto config. -/
theorem finalizeConfig_auto (s : ThinkingSupport) (provider : String)
    (n3 : ThinkingConfig) (hm : n3.mode = ThinkingMode.ModeAuto) :
    finalizeConfig s provider n3 =
      { n3 with budget := ClampBudget n3.budget (some s) } := by
  simp [finalizeConfig, hm]

/-- Helper: the final block on a ModeLevel config. -/
theorem finalizeConfig_level (s : ThinkingSupport) (provider : String)
    (n3 : ThinkingConfig) (hm : n3.mode = ThinkingMode.ModeLevel) :
    finalizeConfig s provider n3 = n3 := by
  simp [finalizeConfig, hm]

/-- Helper: the final block of ValidateConfig maps MidOK configurations to
the output shape. -/
theorem finalize_valid (n3 : ThinkingConfig) (s : ThinkingSupport) (provider : String)
    (hwf1 : (0 < s.min ∧ s.min ≤ s.max) ∨ (s.min = 0 ∧ s.max = 0))
    (hmid : MidOK s n3) :
    ValidOutput s provider (finalizeConfig s provider n3) := by
  obtain ⟨hB, hL, hA⟩ := hmid
  cases hm : n3.mode with
  | ModeNone =>
    by_cases hp : provider = "claude"
    · left
      rw [finalizeConfig_none_claude s provider n3 hm hp]
      exact ⟨by simp [hm], hp, rfl, rfl⟩
    · right; left
      rw [finalizeConfig_none_other s provider n3 hm hp]
      by_cases hset : ClampBudget n3.budget (some s) > 0 ∧ s.levels ≠ []
      · rw [if_pos hset]
        refine ⟨by simp [hm], hp, ?_, fun _ => rfl⟩
        simpa using ClampBudget_fix n3.budget s hwf1
      · rw [if_neg hset]
        refine ⟨by simp [hm], hp, by simpa using ClampBudget_fix n3.budget s hwf1, ?_⟩
        intro hcond
        exact absurd (by simpa using hcond) hset
  | ModeBudget =>
    obtain ⟨hnz, hcap⟩ := hB hm
    right; right; left
    rw [finalizeConfig_budget s provider n3 hm]
    refine ⟨by simp [hm], by simpa using ClampBudget_ne_zero n3.budget s hwf1 hnz,
      by simpa using ClampBudget_fix n3.budget s hwf1, hcap⟩
  | ModeLevel =>
    obtain ⟨hnn, hna, hsupp, hcap⟩ := hL hm
    right; right; right; left
    rw [finalizeConfig_level s provider n3 hm]
    exact ⟨hm, hnn, hna, hsupp, hcap⟩
  | ModeAuto =>
    right; right; right; right
    rw [finalizeConfig_auto s provider n3 hm]
    exact ⟨by simp [hm], hA hm, by simpa using ClampBudget_fix n3.budget s hwf1⟩

/-- Helper: every successful ValidateConfig output lands in the output shape. -/
theorem validate_shape (cfg c : ThinkingConfig) (mi : ModelInfo) (s : ThinkingSupport)
    (provider : String) (hmi : mi.thinking = some s) (hwf : wellFormedSupport s)
    (h : ValidateConfig cfg (some mi) provider = Except.ok c) :
    ValidOutput s provider c := by
  simp only [ValidateConfig, hmi] at h
  cases hconv : convertByCapability (detectModelCapability s) cfg with
  | error e =>
    rw [hconv] at h
    simp at h
  | ok n1 =>
    rw [hconv] at h
    simp only at h
    by_cases hchk : s.levels ≠ [] ∧ (rewriteSpecials n1).mode = ThinkingMode.ModeLevel ∧
        ¬ isLevelSupported (rewriteSpecials n1).level s.levels = true
    · rw [if_pos hchk] at h
      simp at h
    · rw [if_neg hchk] at h
      have hc := (Except.ok.inj h).symm
      rw [hc]
      exact finalize_valid _ s provider hwf.1 (midok_pipeline cfg n1 s hwf hconv hchk)

/-- Helper: shaped outputs are fixed points of ValidateConfig. -/
theorem validate_fixed (c : ThinkingConfig) (mi : ModelInfo) (s : ThinkingSupport)
    (provider : String) (hmi : mi.thinking = some s)
    (hout : ValidOutput s provider c) :
    ValidateConfig c (some mi) provider = Except.ok c := by
  rcases hout with ⟨hm, hp, hb, hl⟩ | ⟨hm, hp, hcl, hlv⟩ | ⟨hm, hb, hcl, hcap⟩ |
    ⟨hm, hnn, hna, hsup, hcap⟩ | ⟨hm, hdyn, hcl⟩
  · have hconv : convertByCapability (detectModelCapability s) c = Except.ok c := by
      cases detectModelCapability s <;> simp [convertByCapability, hm]
    have hrw : rewriteSpecials c = c := by
      simp [rewriteSpecials, hm]
    simp only [ValidateConfig, hmi, hconv, hrw]
    rw [if_neg (by simp [hm]), if_neg (by simp [hm])]
    rw [finalizeConfig_none_claude s provider c hm hp]
    congr 1
    cases c
    simp_all
  · have hconv : convertByCapability (detectModelCapability s) c = Except.ok c := by
      cases detectModelCapability s <;> simp [convertByCapability, hm]
    have hrw : rewriteSpecials c = c := by
      simp [rewriteSpecials, hm]
    simp only [ValidateConfig, hmi, hconv, hrw]
    rw [if_neg (by simp [hm]), if_neg (by simp [hm])]
    rw [finalizeConfig_none_other s provider c hm hp]
    by_cases hset : ClampBudget c.budget (some s) > 0 ∧ s.levels ≠ []
    · rw [if_pos hset]
      have hlev : c.level = s.levels.headD "" := by
        apply hlv
        constructor
        · rw [← hcl]
          exact hset.1
        · exact hset.2
      congr 1
      cases c
      simp_all
    · rw [if_neg hset]
      congr 1
      cases c
      simp_all
  · have hconv : convertByCapability (detectModelCapability s) c = Except.ok c := by
      cases hq : detectModelCapability s with
      | CapabilityLevelOnly => exact absurd hq hcap
      | CapabilityBudgetOnly => simp [convertByCapability, hm]
      | CapabilityHybrid => simp [convertByCapability]
    have hrw : rewriteSpecials c = c := by
      simp [rewriteSpecials, hm, hb]
    simp only [ValidateConfig, hmi, hconv, hrw]
    rw [if_neg (by simp [hm]), if_neg (by simp [hm])]
    rw [finalizeConfig_budget s provider c hm]
    congr 1
    cases c
    simp_all
  · have hconv : convertByCapability (detectModelCapability s) c = Except.ok c := by
      cases hq : detectModelCapability s with
      | CapabilityBudgetOnly => exact absurd hq hcap
      | CapabilityLevelOnly => simp [convertByCapability, hm]
      | CapabilityHybrid => simp [convertByCapability]
    have hrw : rewriteSpecials c = c := by
      simp [rewriteSpecials, hm, hnn, hna]
    simp only [ValidateConfig, hmi, hconv, hrw]
    rw [if_neg (by
      intro hq2
      exact absurd (hsup hq2.1) (by simpa using hq2.2.2))]
    rw [if_neg (by simp [hm])]
    rw [finalizeConfig_level s provider c hm]
  · have hconv : convertByCapability (detectModelCapability s) c = Except.ok c := by
      cases detectModelCapability s <;> simp [convertByCapability, hm]
    have hrw : rewriteSpecials c = c := by
      simp [rewriteSpecials, hm]
    simp only [ValidateConfig, hmi, hconv, hrw]
    rw [if_neg (by simp [hm]), if_neg (by simp [hdyn])]
    rw [finalizeConfig_auto s provider c hm]
    congr 1
    cases c
    simp_all

/-- C7 counterexample: on a level-only model whose levels are low and high
with dynamic thinking disallowed, ValidateConfig turns ModeAuto into the
unchecked medium level, and re-validating that very output fails with
LevelNotSupported, so Validate of Validate differs from Validate. -/
theorem C7_validate_idempotent_counterexample :
    ValidateConfig ⟨ThinkingMode.ModeAuto, -1, ""⟩ (some lowHighLevelModel) "openai" =
      Except.ok ⟨ThinkingMode.ModeLevel, 0, LevelMedium⟩ ∧
    ValidateConfig ⟨ThinkingMode.ModeLevel, 0, LevelMedium⟩ (some lowHighLevelModel)
      "openai" = Except.error ThinkingErr.levelNotSupported :=
  ⟨rfl, rfl⟩

/-- C7 amended: ValidateConfig is idempotent for every configuration and
provider on models without a thinking block, and on models whose thinking
block is well-formed: range absent or positive and ordered, a degenerate
all-zero block without levels and dynamic support allows zero, and a
level-only block without dynamic support lists the medium level the auto
fallback selects. -/
theorem C7_validate_idempotent_amended (cfg c : ThinkingConfig) (mi : Option ModelInfo)
    (provider : String)
    (hwf : ∀ m s, mi = Option.some m → m.thinking = Option.some s → wellFormedSupport s)
    (h : ValidateConfig cfg mi provider = Except.ok c) :
    ValidateConfig c mi provider = Except.ok c := by
  cases mi with
  | none =>
    simp only [ValidateConfig] at h ⊢
    by_cases hm : cfg.mode ≠ ThinkingMode.ModeNone
    · rw [if_pos hm] at h
      simp at h
    · rw [if_neg hm] at h
      obtain rfl := Except.ok.inj h
      rw [if_neg hm]
  | some m =>
    cases hth : m.thinking with
    | none =>
      simp only [ValidateConfig, hth] at h ⊢
      by_cases hm : cfg.mode ≠ ThinkingMode.ModeNone
      · rw [if_pos hm] at h
        simp at h
      · rw [if_neg hm] at h
        obtain rfl := Except.ok.inj h
        rw [if_neg hm]
    | some s =>
      exact validate_fixed c m s provider hth
        (validate_shape cfg c m s provider hth (hwf m s rfl hth) h)

/-- C7 witness: re-validating the clamped output of a budget request on the
budget-only test model reproduces it unchanged. -/
theorem C7_validate_idempotent_amended_witness :
    ValidateConfig ⟨ThinkingMode.ModeBudget, 20000, ""⟩ (some budgetOnlyModel)
      "gemini" = Except.ok ⟨ThinkingMode.ModeBudget, 20000, ""⟩ := by
  exact C7_validate_idempotent_amended ⟨ThinkingMode.ModeBudget, 30000, ""⟩
    ⟨ThinkingMode.ModeBudget, 20000, ""⟩ (some budgetOnlyModel) "gemini"
    (by
      intro m s hm hs
      obtain rfl := Option.some.inj hm
      obtain rfl := Option.some.inj hs
      exact ⟨Or.inl ⟨by norm_num, by norm_num⟩,
        fun hq => absurd hq.1 (by norm_num), fun hq => absurd rfl hq.2.2.1⟩)
    rfl
